import Mathlib

/-!
Verification development for the MCPedia knowledge-entry store.

The definitions below are a shallow embedding of the Go source:
the SQLite-backed repository (`internal/db`, schema in
`internal/db/schema.sql`) and the MCP protocol dispatcher
(`internal/mcp/mcp.go`).  Tables become lists of rows, SQL statements
become list operations, a transaction becomes a pure function that
either returns the updated store or returns the unchanged store
together with an error (mirroring `tx.Rollback`).  Time is an abstract
`Nat` tick passed to each operation that reads the clock.  External
library behaviour that the Go code delegates to is modelled explicitly
and is marked as such in the doc comments: SHA-256 hashing is an
abstract parameter, SQLite FTS5 `MATCH` is modelled as whole-token
containment, and base64 page cursors are modelled as the numeric
offsets they encode.
-/

namespace MCPedia

/-- Character-list whitespace trim, modelling Go `strings.TrimSpace`
(drop leading and trailing whitespace). -/
def trimChars (l : List Char) : List Char :=
  ((l.dropWhile Char.isWhitespace).reverse.dropWhile Char.isWhitespace).reverse

/-- String form of `trimChars`. -/
def trimStr (s : String) : String := String.mk (trimChars s.data)

/-- Lexicographic comparison of character lists by code point, modelling
SQLite's BINARY collation used by `ORDER BY` on text columns (UTF-8 byte
order coincides with code-point order). -/
def strLeChars : List Char → List Char → Bool
  | [], _ => true
  | _ :: _, [] => false
  | a :: as, b :: bs =>
    a.toNat < b.toNat || (a.toNat = b.toNat && strLeChars as bs)

/-- String order used for `ORDER BY` clauses. -/
def strLe (a b : String) : Bool := strLeChars a.data b.data

/-- Propositional form of `strLe`, used with `List.insertionSort`. -/
def nameLe (a b : String) : Prop := strLe a b = true

instance : DecidableRel nameLe := fun _ _ => inferInstanceAs (Decidable (_ = true))

/-- Prefix test on character lists, used to model Go `strings.TrimPrefix`. -/
def isPrefixChars : List Char → List Char → Bool
  | [], _ => true
  | _ :: _, [] => false
  | a :: as, b :: bs => a = b && isPrefixChars as bs

/-- Model of Go `strings.TrimPrefix`: drop the prefix when present,
otherwise return the string unchanged. -/
def goTrimPrefix (s p : String) : String :=
  if isPrefixChars p.data s.data then String.mk (s.data.drop p.data.length) else s

/-- Splitting helper for the tokenizer: cut the character list at each
space, accumulating the current token in reverse. -/
def tokensAux : List Char → List Char → List String
  | [], acc => [String.mk acc.reverse]
  | c :: cs, acc =>
    if c = ' ' then String.mk acc.reverse :: tokensAux cs []
    else tokensAux cs (c :: acc)

/-- Tokenisation used by the full-text-search model: split on spaces.
Modelled behaviour of the external SQLite FTS5 tokenizer; the claims
quantify over a term occurring in a field, which this captures. -/
def tokens (t : String) : List String := tokensAux t.data []

instance exceptDecEq {ε α : Type} [DecidableEq ε] [DecidableEq α] :
    DecidableEq (Except ε α) := fun a b =>
  match a, b with
  | .ok x, .ok y =>
    if h : x = y then isTrue (by rw [h]) else isFalse (by simp [h])
  | .error x, .error y =>
    if h : x = y then isTrue (by rw [h]) else isFalse (by simp [h])
  | .ok _, .error _ => isFalse (by simp)
  | .error _, .ok _ => isFalse (by simp)

/-- Row of the `entries` table (schema.sql). -/
structure EntryRow where
  id : Nat
  slug : String
  title : String
  description : String
  content : String
  kind : String
  language : String
  domain : String
  project : String
  version : Nat
  createdAt : Nat
  updatedAt : Nat
deriving Repr, DecidableEq

/-- Row of the `entries_fts` FTS5 virtual table. -/
structure FtsRow where
  rowid : Nat
  title : String
  description : String
  content : String
deriving Repr, DecidableEq

/-- Row of the `tags` table. -/
structure TagRow where
  id : Nat
  name : String
deriving Repr, DecidableEq

/-- Row of the `entry_tags` association table. -/
structure EntryTagRow where
  entryId : Nat
  tagId : Nat
deriving Repr, DecidableEq

/-- Row of the `entry_stats` table. -/
structure StatsRow where
  entryId : Nat
  reads : Nat
  searches : Nat
  updates : Nat
  lastReadAt : Option Nat
  lastSearchAt : Option Nat
  lastUpdateAt : Option Nat
deriving Repr, DecidableEq

/-- The six logical relations of the persisted layout, plus the two
AUTOINCREMENT counters.  The `lock` table is a single row (id = 1), so it
is embedded as its two fields. -/
structure Store where
  entries : List EntryRow
  fts : List FtsRow
  tags : List TagRow
  entryTags : List EntryTagRow
  stats : List StatsRow
  lockActive : Bool
  lockToken : String
  nextEntryId : Nat
  nextTagId : Nat
deriving Repr, DecidableEq

/-- The freshly opened store: empty tables, inactive lock row. -/
def emptyStore : Store :=
  { entries := [], fts := [], tags := [], entryTags := [], stats := []
    lockActive := false, lockToken := "", nextEntryId := 1, nextTagId := 1 }

/-- Error outcomes of repository operations.  The Go code returns
`fmt.Errorf` strings (with sentinels `ErrNotFound` / `ErrLocked`); this
enumeration names each distinct failure produced by the embedded code:
`validation` for empty lock tokens and the content-size CHECK,
`duplicateSlug` for the slug UNIQUE violation on insert, `notFound` for
absent slugs, the three lock-state failures, `locked` for the
dispatcher's write gate, and `internal` for unreachable storage
failures. -/
inductive DBErr where
  | validation
  | notFound
  | duplicateSlug
  | alreadyLocked
  | notLocked
  | invalidToken
  | locked
  | internal
deriving Repr, DecidableEq

/-- Go helper `defaultStr`: substitute a default for the empty string. -/
def defaultStr (s def_ : String) : String := if s = "" then def_ else s

/-- Hard cap on content size enforced by the schema CHECK constraint. -/
def contentCap : Nat := 32768

/-- Filter used by list/search/context queries (struct `Filter`). -/
structure Filter where
  kind : String := ""
  language : String := ""
  domain : String := ""
  project : String := ""
  tag : String := ""
  tags : List String := []
deriving Repr, DecidableEq

/-- Lookup of the `entries` row with the given slug
(`SELECT ... FROM entries WHERE slug = ?`). -/
def findBySlug (s : Store) (slug : String) : Option EntryRow :=
  s.entries.find? (fun e => e.slug = slug)

/-- Lookup of the FTS row for a rowid. -/
def ftsFor (s : Store) (id : Nat) : Option FtsRow :=
  s.fts.find? (fun r => r.rowid = id)

/-- Lookup of the stats row for an entry id. -/
def statsFor (s : Store) (id : Nat) : Option StatsRow :=
  s.stats.find? (fun r => r.entryId = id)

/-- UPDATE entry_stats SET reads = reads + 1, last_read_at = now. -/
def bumpReads (l : List StatsRow) (id : Nat) (now : Nat) : List StatsRow :=
  l.map fun r =>
    if r.entryId = id then { r with reads := r.reads + 1, lastReadAt := some now } else r

/-- UPDATE entry_stats SET searches = searches + 1, last_search_at = now. -/
def bumpSearches (l : List StatsRow) (id : Nat) (now : Nat) : List StatsRow :=
  l.map fun r =>
    if r.entryId = id then { r with searches := r.searches + 1, lastSearchAt := some now } else r

/-- UPDATE entry_stats SET updates = updates + 1, last_update_at = now. -/
def bumpUpdates (l : List StatsRow) (id : Nat) (now : Nat) : List StatsRow :=
  l.map fun r =>
    if r.entryId = id then { r with updates := r.updates + 1, lastUpdateAt := some now } else r

/-- One step of `setTags`' loop body: INSERT OR IGNORE INTO tags followed by
SELECT id FROM tags WHERE name = ?.  Returns the table, the next
AUTOINCREMENT id and the id of the (possibly fresh) tag row. -/
def upsertTag (tags : List TagRow) (next : Nat) (name : String) :
    List TagRow × Nat × Nat :=
  match tags.find? (fun t => t.name = name) with
  | some t => (tags, next, t.id)
  | none => (tags ++ [⟨next, name⟩], next + 1, next)

/-- INSERT OR IGNORE INTO entry_tags: the association table has
PRIMARY KEY (entry_id, tag_id), so a duplicate insert is a no-op. -/
def insertAssoc (ets : List EntryTagRow) (eid tid : Nat) : List EntryTagRow :=
  if (⟨eid, tid⟩ : EntryTagRow) ∈ ets then ets else ets ++ [⟨eid, tid⟩]

/-- Loop of `setTags` over the requested tag names: trim, skip blanks,
upsert the tag row, insert the association. -/
def setTagsLoop (tags : List TagRow) (ets : List EntryTagRow) (next eid : Nat) :
    List String → List TagRow × List EntryTagRow × Nat
  | [] => (tags, ets, next)
  | n :: rest =>
    if trimStr n = "" then setTagsLoop tags ets next eid rest
    else
      setTagsLoop (upsertTag tags next (trimStr n)).1
        (insertAssoc ets eid (upsertTag tags next (trimStr n)).2.2)
        (upsertTag tags next (trimStr n)).2.1 eid rest

/-- Go `setTags`: replace all tags of an entry inside the surrounding
transaction — DELETE FROM entry_tags WHERE entry_id = ?, then loop over
the names. -/
def setTags (s : Store) (eid : Nat) (names : List String) : Store :=
  let ets0 := s.entryTags.filter (fun a => a.entryId ≠ eid)
  let r := setTagsLoop s.tags ets0 s.nextTagId eid names
  { s with tags := r.1, entryTags := r.2.1, nextTagId := r.2.2 }

/-- Go `getTagsForEntry`: SELECT t.name FROM tags t JOIN entry_tags et
ON et.tag_id = t.id WHERE et.entry_id = ? ORDER BY t.name.  `tags.id` is
the primary key, so the join resolves each association to its unique tag
row. -/
def getTagsForEntry (s : Store) (eid : Nat) : List String :=
  let names := s.entryTags.filterMap fun a =>
    if a.entryId = eid then (s.tags.find? (fun t => t.id = a.tagId)).map TagRow.name
    else none
  names.insertionSort nameLe

/-- Entry as returned to callers: the row plus the tag names (Go `Entry`
carries `Tags []string`; the `Snippet` field is search-engine output and
is not modelled). -/
structure EntryOut where
  row : EntryRow
  tags : List String
deriving Repr, DecidableEq

/-- Input to `CreateEntry` (the caller-supplied fields of Go `Entry`). -/
structure EntryInput where
  slug : String
  title : String := ""
  description : String := ""
  content : String := ""
  kind : String := ""
  language : String := ""
  domain : String := ""
  project : String := ""
  tags : List String := []
deriving Repr, DecidableEq

/-- Go `CreateEntry`: one transaction inserting the entry row (slug
UNIQUE and the content-length CHECK can fail it), the FTS row, the
zeroed stats row and the tag associations.  On failure the transaction
rolls back, so the unchanged store is returned.  `version`, `created_at`
and `updated_at` take their schema defaults (1 and the current time). -/
def CreateEntry (s : Store) (e : EntryInput) (now : Nat) :
    Store × Except DBErr EntryRow :=
  if s.entries.any (fun r => r.slug = e.slug) then (s, .error .duplicateSlug)
  else if contentCap < e.content.length then (s, .error .validation)
  else
    let id := s.nextEntryId
    let row : EntryRow :=
      { id := id, slug := e.slug, title := e.title, description := e.description
        content := e.content, kind := defaultStr e.kind "skill"
        language := e.language, domain := e.domain, project := e.project
        version := 1, createdAt := now, updatedAt := now }
    let s1 : Store := { s with
      entries := s.entries ++ [row]
      fts := s.fts ++ [⟨id, e.title, e.description, e.content⟩]
      stats := s.stats ++ [⟨id, 0, 0, 0, none, none, none⟩]
      nextEntryId := id + 1 }
    (setTags s1 id e.tags, .ok row)

/-- Go `GetEntry`: SELECT by slug, attach tags, then best-effort bump of
the reads counter. -/
def GetEntry (s : Store) (slug : String) (now : Nat) :
    Store × Except DBErr EntryOut :=
  match findBySlug s slug with
  | none => (s, .error .notFound)
  | some e =>
    ({ s with stats := bumpReads s.stats e.id now },
     .ok ⟨e, getTagsForEntry s e.id⟩)

/-- Partial field set of `UpdateEntry` (Go `map[string]any` restricted to
the supported keys; a present key carries the new value). -/
structure UpdateFields where
  title : Option String := none
  description : Option String := none
  content : Option String := none
  kind : Option String := none
  language : Option String := none
  domain : Option String := none
  project : Option String := none
  tags : Option (List String) := none
deriving Repr, DecidableEq

/-- The dynamic UPDATE built by `UpdateEntry`: set exactly the present
fields, always bump `version` and refresh `updated_at`. -/
def applyFields (f : UpdateFields) (r : EntryRow) (now : Nat) : EntryRow :=
  { r with
    title := f.title.getD r.title
    description := f.description.getD r.description
    content := f.content.getD r.content
    kind := f.kind.getD r.kind
    language := f.language.getD r.language
    domain := f.domain.getD r.domain
    project := f.project.getD r.project
    version := r.version + 1
    updatedAt := now }

/-- The dynamic UPDATE statement of `UpdateEntry`: rewrite the row with
the entry's id in place. -/
def updateRows (s : Store) (e0 : EntryRow) (f : UpdateFields) (now : Nat) : Store :=
  { s with entries := s.entries.map (fun r =>
      if r.id = e0.id then applyFields f r now else r) }

/-- Tail of a successful `UpdateEntry` transaction: resync the FTS row
from the re-read post-update row `cur` (delete then insert), replace the
tag set when the `tags` key is present, and bump the updates counter. -/
def updateFinish (s1 : Store) (e0 cur : EntryRow) (f : UpdateFields) (now : Nat) :
    Store :=
  let s2 : Store := { s1 with
    fts := (s1.fts.filter (fun r => r.rowid ≠ e0.id)) ++
      [(⟨e0.id, cur.title, cur.description, cur.content⟩ : FtsRow)] }
  let s3 : Store := match f.tags with
    | some l => setTags s2 e0.id l
    | none => s2
  { s3 with stats := bumpUpdates s3.stats e0.id now }

/-- Go `UpdateEntry`: one transaction that looks up the id by slug,
applies the dynamic UPDATE (the content CHECK can fail it), re-reads the
post-update row state for the FTS resync, and finishes with
`updateFinish`. -/
def UpdateEntry (s : Store) (slug : String) (f : UpdateFields) (now : Nat) :
    Store × Except DBErr Unit :=
  match findBySlug s slug with
  | none => (s, .error .notFound)
  | some e0 =>
    if contentCap < (f.content.getD e0.content).length then (s, .error .validation)
    else
      match (updateRows s e0 f now).entries.find? (fun r => r.id = e0.id) with
      | none => (s, .error .internal)
      | some cur => (updateFinish (updateRows s e0 f now) e0 cur f now, .ok ())

/-- Store components untouched by `setTags`. -/
theorem setTags_entries (s : Store) (eid : Nat) (names : List String) :
    (setTags s eid names).entries = s.entries := rfl

theorem setTags_fts (s : Store) (eid : Nat) (names : List String) :
    (setTags s eid names).fts = s.fts := rfl

theorem setTags_stats (s : Store) (eid : Nat) (names : List String) :
    (setTags s eid names).stats = s.stats := rfl

/-- Entry rows are not changed by the tail of the update transaction. -/
theorem updateFinish_entries (s1 : Store) (e0 cur : EntryRow) (f : UpdateFields)
    (now : Nat) : (updateFinish s1 e0 cur f now).entries = s1.entries := by
  unfold updateFinish
  cases f.tags <;> simp [setTags_entries]

/-- FTS state after the tail of the update transaction. -/
theorem updateFinish_fts (s1 : Store) (e0 cur : EntryRow) (f : UpdateFields)
    (now : Nat) : (updateFinish s1 e0 cur f now).fts =
      (s1.fts.filter (fun r => r.rowid ≠ e0.id)) ++
        [(⟨e0.id, cur.title, cur.description, cur.content⟩ : FtsRow)] := by
  unfold updateFinish
  cases f.tags <;> simp [setTags_fts]

/-- Associations are untouched by an update without a tags field. -/
theorem updateFinish_entryTags_none (s1 : Store) (e0 cur : EntryRow)
    (f : UpdateFields) (now : Nat) (h : f.tags = none) :
    (updateFinish s1 e0 cur f now).entryTags = s1.entryTags := by
  unfold updateFinish
  rw [h]

/-- Go `DeleteEntry`: one transaction that looks up the id by slug,
deletes the FTS row and the entry row; ON DELETE CASCADE (schema.sql)
removes the entry's associations and its stats row. -/
def DeleteEntry (s : Store) (slug : String) : Store × Except DBErr Unit :=
  match findBySlug s slug with
  | none => (s, .error .notFound)
  | some e =>
    ({ s with
      fts := s.fts.filter (fun r => r.rowid ≠ e.id)
      entries := s.entries.filter (fun r => r.id ≠ e.id)
      entryTags := s.entryTags.filter (fun a => a.entryId ≠ e.id)
      stats := s.stats.filter (fun r => r.entryId ≠ e.id) }, .ok ())

/-- Does the entry carry the tag with this name (the single-tag JOIN of
the list/search queries)? -/
def hasTag (s : Store) (eid : Nat) (name : String) : Bool :=
  s.tags.any fun t =>
    t.name = name && s.entryTags.any fun a => a.entryId = eid && a.tagId = t.id

/-- The WHERE clauses shared by list/search/context: each non-empty
filter field must equal the column. -/
def matchesBase (f : Filter) (e : EntryRow) : Bool :=
  (f.kind = "" || e.kind = f.kind) &&
  (f.language = "" || e.language = f.language) &&
  (f.domain = "" || e.domain = f.domain) &&
  (f.project = "" || e.project = f.project)

/-- Filter including the optional single-tag JOIN (list and search). -/
def entryMatchesFilter (s : Store) (f : Filter) (e : EntryRow) : Bool :=
  matchesBase f e && (f.tag = "" || hasTag s e.id f.tag)

/-- ORDER BY e.title for entry listings. -/
def sortByTitle (l : List EntryRow) : List EntryRow :=
  l.insertionSort fun a b => nameLe a.title b.title

instance : DecidableRel (fun (a b : EntryRow) => nameLe a.title b.title) :=
  fun _ _ => inferInstanceAs (Decidable (_ = true))

/-- Go `ListEntries`: filtered listing without content, ordered by
title. -/
def ListEntries (s : Store) (f : Filter) : List EntryOut :=
  (sortByTitle (s.entries.filter (entryMatchesFilter s f))).map fun e =>
    ⟨{ e with content := "" }, getTagsForEntry s e.id⟩

/-- Modelled behaviour of SQLite FTS5 `MATCH` for a single-term query:
the row matches when the term occurs as a token of its title,
description or content. -/
def ftsRowMatches (q : String) (r : FtsRow) : Bool :=
  (tokens r.title).contains q || (tokens r.description).contains q ||
    (tokens r.content).contains q

/-- Effective limit of `SearchEntries`: out-of-range values (including
the unset zero) are replaced by the default 10. -/
def effSearchLimit (limit : Int) : Int :=
  if limit ≤ 0 || limit > 50 then 10 else limit

/-- Effective limit of `GetEntriesByContext`: out-of-range values are
replaced by the default 20. -/
def effContextLimit (limit : Int) : Int :=
  if limit ≤ 0 || limit > 50 then 20 else limit

/-- Modelled from the spec: a result limit "clamp to [1,50]", written
only for comparison against the source's effective-limit computation. -/
def specClampLimit (limit : Int) : Int := max 1 (min limit 50)

/-- Go `SearchEntries`: JOIN of the matching FTS rows with their entry
rows, restricted by the filters, truncated to the effective limit;
content is not returned; each returned entry gets one searches-counter
bump.  The engine's relevance ranking is external, so result order
follows table order here; the claims below depend only on membership and
counts. -/
def SearchEntries (s : Store) (q : String) (f : Filter) (limit : Int) (now : Nat) :
    Store × List EntryOut :=
  let lim := (effSearchLimit limit).toNat
  let joined := (s.fts.filter (ftsRowMatches q)).filterMap fun r =>
    (s.entries.find? (fun e => e.id = r.rowid)).map fun e =>
      ({ e with content := "" } : EntryRow)
  let page := (joined.filter (entryMatchesFilter s f)).take lim
  (({ s with stats := page.foldl (fun st e => bumpSearches st e.id now) s.stats }),
   page.map fun e => ⟨e, getTagsForEntry s e.id⟩)

/-- Context filter: with a non-empty tag list the entry must carry every
listed tag (one JOIN per tag); otherwise the single-tag filter applies. -/
def contextMatches (s : Store) (f : Filter) (e : EntryRow) : Bool :=
  matchesBase f e &&
    (if f.tags.isEmpty then (f.tag = "" || hasTag s e.id f.tag)
     else f.tags.all fun n => hasTag s e.id n)

/-- Go `GetEntriesByContext`: full entries matching the context filters,
ordered by title, truncated to the effective limit; each returned entry
gets one reads-counter bump. -/
def GetEntriesByContext (s : Store) (f : Filter) (limit : Int) (now : Nat) :
    Store × List EntryOut :=
  let lim := (effContextLimit limit).toNat
  let page := (sortByTitle (s.entries.filter (contextMatches s f))).take lim
  (({ s with stats := page.foldl (fun st e => bumpReads st e.id now) s.stats }),
   page.map fun e => ⟨e, getTagsForEntry s e.id⟩)

/-- Tag with its derived usage count (Go `Tag`). -/
structure TagCount where
  name : String
  count : Nat
deriving Repr, DecidableEq

/-- Number of entries currently associated with the tag. -/
def tagEntryCount (s : Store) (tid : Nat) : Nat :=
  (s.entryTags.filter (fun a => a.tagId = tid)).length

/-- Order of `ListTags`: count descending, then name ascending. -/
def tagCountLe (a b : TagCount) : Prop :=
  (b.count < a.count ∨ (a.count = b.count ∧ nameLe a.name b.name))

instance : DecidableRel tagCountLe := fun a b => by
  unfold tagCountLe; infer_instance

/-- Go `ListTags`: the inner JOIN keeps only tags with at least one
association; counts are derived live from the association table. -/
def ListTags (s : Store) : List TagCount :=
  ((s.tags.filter (fun t => 0 < tagEntryCount s t.id)).map fun t =>
    (⟨t.name, tagEntryCount s t.id⟩ : TagCount)).insertionSort tagCountLe

/-- Stats as returned by `GetStats` (Go `EntryStats`). -/
structure EntryStats where
  reads : Nat
  searches : Nat
  updates : Nat
  lastReadAt : Option Nat
  lastSearchAt : Option Nat
  lastUpdateAt : Option Nat
deriving Repr, DecidableEq

/-- Go `GetStats`: JOIN of entry_stats with entries on the slug; no row
means not-found. -/
def GetStats (s : Store) (slug : String) : Except DBErr EntryStats :=
  match findBySlug s slug with
  | none => .error .notFound
  | some e =>
    match statsFor s e.id with
    | none => .error .notFound
    | some r => .ok ⟨r.reads, r.searches, r.updates,
        r.lastReadAt, r.lastSearchAt, r.lastUpdateAt⟩

/-- Go `AllEntries`: everything, full content, ordered by slug. -/
def AllEntries (s : Store) : List EntryOut :=
  ((s.entries.insertionSort fun a b => nameLe a.slug b.slug).map fun e =>
    (⟨e, getTagsForEntry s e.id⟩ : EntryOut))

instance : DecidableRel (fun (a b : EntryRow) => nameLe a.slug b.slug) :=
  fun _ _ => inferInstanceAs (Decidable (_ = true))

/-- Go `IsLocked`: SELECT active FROM lock WHERE id = 1. -/
def IsLocked (s : Store) : Bool := s.lockActive

/-- Go `Lock`: reject an empty token, fail when already active,
otherwise store the hash of the token and raise the flag.  `hash`
abstracts the external `crypto/sha256` + hex encoding used by
`hashToken`. -/
def Lock (hash : String → String) (s : Store) (token : String) :
    Except DBErr Store :=
  if token = "" then .error .validation
  else if s.lockActive then .error .alreadyLocked
  else .ok { s with lockActive := true, lockToken := hash token }

/-- Go `Unlock`: reject an empty token, fail when not locked, fail when
the hash of the supplied token differs from the stored hash, otherwise
clear the flag and the stored hash. -/
def Unlock (hash : String → String) (s : Store) (token : String) :
    Except DBErr Store :=
  if token = "" then .error .validation
  else if !s.lockActive then .error .notLocked
  else if s.lockToken ≠ hash token then .error .invalidToken
  else .ok { s with lockActive := false, lockToken := "" }

/-!
Protocol layer (`internal/mcp/mcp.go`).  Requests arrive here after the
HTTP transport has parsed the JSON envelope, so parameters are embedded
as structured values; the session registry lives in process memory
outside the store and is not needed by the claims settled below.
-/

/-- Parsed `arguments` object of a tools/call request.  A `none` field
is an absent key; the Go helpers `str`, `intVal` and `strSlice`
substitute "", the default and nil respectively. -/
structure ToolArgs where
  slug : Option String := none
  title : Option String := none
  description : Option String := none
  content : Option String := none
  kind : Option String := none
  language : Option String := none
  domain : Option String := none
  project : Option String := none
  tag : Option String := none
  tags : Option (List String) := none
  query : Option String := none
  limit : Option Int := none
deriving Repr, DecidableEq

/-- Payload of a successful tool result (abstraction of the JSON the Go
code marshals into the text content). -/
inductive ToolPayload where
  | entry (e : EntryOut)
  | entries (l : List EntryOut)
  | tagList (l : List TagCount)
  | deleted (slug : String)
  | msg (s : String)
deriving Repr, DecidableEq

/-- Result payloads of the non-tool handlers. -/
inductive RpcResult where
  | initResult
  | pingResult
  | toolsListResult (names : List String)
  | toolOutcome (tool_failed : Bool) (payload : ToolPayload)
  | resourceList (uris : List String) (nextCursor : Option Nat)
  | resourceContents (uri : String) (text : String)
  | templatesList (templates : List String)
  | promptsListResult (names : List String)
  | promptResult (description : String) (text : String)
deriving Repr, DecidableEq

/-- Outcome of a dispatched request: a JSON-RPC result or a JSON-RPC
protocol error with its numeric code and message. -/
inductive RpcOut where
  | result (r : RpcResult)
  | rpcError (code : Int) (message : String)
deriving Repr, DecidableEq

/-- Go `toolError`: a successful protocol result flagged as a tool-level
failure carrying the failure text. -/
def toolErrorOut (msg : String) : RpcOut := .result (.toolOutcome true (.msg msg))

/-- Go `toolResult`: a successful protocol result with the payload. -/
def toolOkOut (p : ToolPayload) : RpcOut := .result (.toolOutcome false p)

/-- Error text attached by the repository to its failures (the strings
built with `fmt.Errorf`), as surfaced through tool failures and protocol
errors. -/
def dbErrText (e : DBErr) (slug : String) : String :=
  match e with
  | .validation => "validation failed"
  | .notFound => "entry not found: " ++ slug
  | .duplicateSlug => "insert entry: UNIQUE constraint failed: entries.slug"
  | .alreadyLocked => "database is already locked"
  | .notLocked => "database is not locked"
  | .invalidToken => "invalid token"
  | .locked => "database is locked. Write operations are disabled"
  | .internal => "internal error"

/-- Go `checkLock`: the write gate run first by the three mutating
tools. -/
def checkLock (s : Store) : Except DBErr Unit :=
  if IsLocked s then .error .locked else .ok ()

/-- Go `toolSearchEntries`: requires `query`, reads the limit with
default 10, builds the filter, runs the search. -/
def toolSearchEntries (s : Store) (args : ToolArgs) (now : Nat) : Store × RpcOut :=
  let query := args.query.getD ""
  if query = "" then (s, toolErrorOut "query is required")
  else
    let f : Filter := {
      kind := args.kind.getD ""
      language := args.language.getD ""
      domain := args.domain.getD ""
      project := args.project.getD ""
      tag := args.tag.getD "" }
    let r := SearchEntries s query f (args.limit.getD 10) now
    (r.1, toolOkOut (.entries r.2))

/-- Go `toolGetEntry`: requires `slug`; not gated by the lock. -/
def toolGetEntry (s : Store) (args : ToolArgs) (now : Nat) : Store × RpcOut :=
  let slug := args.slug.getD ""
  if slug = "" then (s, toolErrorOut "slug is required")
  else
    match GetEntry s slug now with
    | (s', .ok e) => (s', toolOkOut (.entry e))
    | (_, .error er) => (s, toolErrorOut (dbErrText er slug))

/-- Go `toolGetEntriesByContext`: limit default 20, conjunctive tags. -/
def toolGetEntriesByContext (s : Store) (args : ToolArgs) (now : Nat) :
    Store × RpcOut :=
  let f : Filter := {
    kind := args.kind.getD ""
    language := args.language.getD ""
    domain := args.domain.getD ""
    project := args.project.getD ""
    tags := args.tags.getD [] }
  let r := GetEntriesByContext s f (args.limit.getD 20) now
  (r.1, toolOkOut (.entries r.2))

/-- Go `toolListEntries`: optional kind/language/domain/project filters
only. -/
def toolListEntries (s : Store) (args : ToolArgs) : Store × RpcOut :=
  let f : Filter := {
    kind := args.kind.getD ""
    language := args.language.getD ""
    domain := args.domain.getD ""
    project := args.project.getD "" }
  (s, toolOkOut (.entries (ListEntries s f)))

/-- Go `toolListTags`. -/
def toolListTags (s : Store) : Store × RpcOut :=
  (s, toolOkOut (.tagList (ListTags s)))

/-- Go `toolCreateEntry`: lock gate first, then the required-field
validation, then the repository create. -/
def toolCreateEntry (s : Store) (args : ToolArgs) (now : Nat) : Store × RpcOut :=
  match checkLock s with
  | .error _ => (s, toolErrorOut (dbErrText .locked ""))
  | .ok _ =>
    let slug := args.slug.getD ""
    let title := args.title.getD ""
    let content := args.content.getD ""
    if slug = "" || title = "" || content = "" then
      (s, toolErrorOut "slug, title, and content are required")
    else
      let e : EntryInput := {
        slug := slug
        title := title
        description := args.description.getD ""
        content := content
        kind := args.kind.getD ""
        language := args.language.getD ""
        domain := args.domain.getD ""
        project := args.project.getD ""
        tags := args.tags.getD [] }
      match CreateEntry s e now with
      | (s', .ok row) => (s', toolOkOut (.entry ⟨row, e.tags⟩))
      | (_, .error er) => (s, toolErrorOut (dbErrText er slug))

/-- Go `toolUpdateEntry`: lock gate first, the fields present in the
arguments become the partial-field set, and the updated entry is read
back (which also bumps its reads counter). -/
def toolUpdateEntry (s : Store) (args : ToolArgs) (now : Nat) : Store × RpcOut :=
  match checkLock s with
  | .error _ => (s, toolErrorOut (dbErrText .locked ""))
  | .ok _ =>
    let slug := args.slug.getD ""
    if slug = "" then (s, toolErrorOut "slug is required")
    else
      let f : UpdateFields := {
        title := args.title
        description := args.description
        content := args.content
        kind := args.kind
        language := args.language
        domain := args.domain
        project := args.project
        tags := args.tags }
      match UpdateEntry s slug f now with
      | (s', .ok _) =>
        match GetEntry s' slug now with
        | (s'', .ok e) => (s'', toolOkOut (.entry e))
        | (_, .error er) => (s', toolErrorOut (dbErrText er slug))
      | (_, .error er) => (s, toolErrorOut (dbErrText er slug))

/-- Go `toolDeleteEntry`: lock gate first, then the repository delete. -/
def toolDeleteEntry (s : Store) (args : ToolArgs) : Store × RpcOut :=
  match checkLock s with
  | .error _ => (s, toolErrorOut (dbErrText .locked ""))
  | .ok _ =>
    let slug := args.slug.getD ""
    if slug = "" then (s, toolErrorOut "slug is required")
    else
      match DeleteEntry s slug with
      | (s', .ok _) => (s', toolOkOut (.deleted slug))
      | (_, .error er) => (s, toolErrorOut (dbErrText er slug))

/-- Names of the eight tools in the dispatch table of
`handleToolsCall`. -/
def toolNames : List String :=
  ["search_entries", "get_entry", "get_entries_by_context", "list_entries",
   "list_tags", "create_entry", "update_entry", "delete_entry"]

/-- Go `handleToolsCall`: exact-match dispatch on the tool name; an
unknown name is answered with the protocol error -32602. -/
def handleToolsCall (s : Store) (name : String) (args : ToolArgs) (now : Nat) :
    Store × RpcOut :=
  match name with
  | "search_entries" => toolSearchEntries s args now
  | "get_entry" => toolGetEntry s args now
  | "get_entries_by_context" => toolGetEntriesByContext s args now
  | "list_entries" => toolListEntries s args
  | "list_tags" => toolListTags s
  | "create_entry" => toolCreateEntry s args now
  | "update_entry" => toolUpdateEntry s args now
  | "delete_entry" => toolDeleteEntry s args
  | _ => (s, .rpcError (-32602) ("Unknown tool: " ++ name))

/-- Page size of the resources listing (`resourcesPerPage`). -/
def resourcesPerPage : Nat := 50

/-- Go `handleResourcesList`: lists every entry (unfiltered
`ListEntries`), paginates with a numeric offset (the base64 cursor
encoding is external and modelled as the offset it carries), and returns
a continuation cursor only when entries remain. -/
def handleResourcesList (s : Store) (cursor : Option Nat) : RpcOut :=
  let offset := cursor.getD 0
  let entries := ListEntries s {}
  let len := entries.length
  let stop := min (offset + resourcesPerPage) len
  let page := if offset < len then (entries.drop offset).take (stop - offset) else []
  let uris := page.map fun o => "mcpedia://entries/" ++ o.row.slug
  .result (.resourceList uris (if stop < len then some stop else none))

/-- Go `handleResourcesRead`: strips the fixed URI prefix; a URI without
it (or with nothing after it) is rejected, otherwise the entry is read
by slug and its content returned. -/
def handleResourcesRead (s : Store) (uri : String) (now : Nat) : Store × RpcOut :=
  let slug := goTrimPrefix uri "mcpedia://entries/"
  if slug = "" || slug = uri then
    (s, .rpcError (-32002) ("Invalid resource URI: " ++ uri))
  else
    match GetEntry s slug now with
    | (s', .ok e) => (s', .result (.resourceContents uri e.row.content))
    | (_, .error er) => (s, .rpcError (-32002) (dbErrText er slug))

/-- Go `handleResourcesTemplatesList`: the single entry-by-slug URI
template. -/
def handleResourcesTemplatesList : RpcOut :=
  .result (.templatesList ["mcpedia://entries/\x7bslug\x7d"])

/-- Go `handlePromptsList`. -/
def handlePromptsList : RpcOut :=
  .result (.promptsListResult ["apply-entry", "review-with-entry", "save-learnings"])

/-- Instruction body of the apply-entry prompt. -/
def applyEntryText (title content : String) : String :=
  "You have been given the following guide to follow:\n\n# " ++ title ++
    "\n\n" ++ content ++
    "\n\nApply these guidelines to the current task. Follow them precisely."

/-- Instruction body of the review-with-entry prompt. -/
def reviewEntryText (title content : String) : String :=
  "Review the code in this conversation against the following guidelines:\n\n# " ++
    title ++ "\n\n" ++ content ++
    "\n\nPoint out any violations and suggest fixes. Be specific with line references."

/-- Instruction body of the save-learnings prompt (fixed text). -/
def saveLearningsText : String :=
  "Analyze what was accomplished in this conversation and identify reusable " ++
    "knowledge that should be saved. Use the create_entry tool to save each " ++
    "piece. Keep entries granular -- one concept per entry."

/-- Go `handlePromptsGet`: the two entry-backed prompts require a slug
and resolve it through `GetEntry`; save-learnings is static; an unknown
prompt name is answered with the protocol error -32602. -/
def handlePromptsGet (s : Store) (name slugArg : String) (now : Nat) :
    Store × RpcOut :=
  match name with
  | "apply-entry" =>
    if slugArg = "" then (s, .rpcError (-32602) "slug argument is required")
    else
      match GetEntry s slugArg now with
      | (s', .ok e) =>
        (s', .result (.promptResult ("Apply entry: " ++ e.row.title)
          (applyEntryText e.row.title e.row.content)))
      | (_, .error er) => (s, .rpcError (-32602) (dbErrText er slugArg))
  | "review-with-entry" =>
    if slugArg = "" then (s, .rpcError (-32602) "slug argument is required")
    else
      match GetEntry s slugArg now with
      | (s', .ok e) =>
        (s', .result (.promptResult ("Review with entry: " ++ e.row.title)
          (reviewEntryText e.row.title e.row.content)))
      | (_, .error er) => (s, .rpcError (-32602) (dbErrText er slugArg))
  | "save-learnings" =>
    (s, .result (.promptResult "Save learnings from the current task" saveLearningsText))
  | _ => (s, .rpcError (-32602) ("Unknown prompt: " ++ name))

/-- Parameters of a dispatched request after JSON parsing. -/
structure ReqParams where
  name : String := ""
  args : ToolArgs := {}
  cursor : Option Nat := none
  uri : String := ""
  promptSlug : String := ""
deriving Repr, DecidableEq

/-- Names in the fixed method table of `dispatch`. -/
def methodNames : List String :=
  ["initialize", "ping", "tools/list", "tools/call", "resources/list",
   "resources/read", "resources/templates/list", "prompts/list", "prompts/get"]

/-- Go `dispatch`: exact-match switch over the method name with a
default arm answering -32601 Method not found. -/
def dispatch (s : Store) (method : String) (p : ReqParams) (now : Nat) :
    Store × RpcOut :=
  match method with
  | "initialize" => (s, .result .initResult)
  | "ping" => (s, .result .pingResult)
  | "tools/list" => (s, .result (.toolsListResult toolNames))
  | "tools/call" => handleToolsCall s p.name p.args now
  | "resources/list" => (s, handleResourcesList s p.cursor)
  | "resources/read" => handleResourcesRead s p.uri now
  | "resources/templates/list" => (s, handleResourcesTemplatesList)
  | "prompts/list" => (s, handlePromptsList)
  | "prompts/get" => handlePromptsGet s p.name p.promptSlug now
  | _ => (s, .rpcError (-32601) ("Method not found: " ++ method))

/-!
Well-formedness of a store: the key constraints the schema enforces
(UNIQUE columns, primary keys) together with freshness of the two
AUTOINCREMENT counters.  Every store reachable through the operations
from `emptyStore` satisfies it; the theorems take it as a hypothesis.
-/

/-- Schema-level invariants of a store. -/
structure WF (s : Store) : Prop where
  entryIdsNodup : (s.entries.map EntryRow.id).Nodup
  slugsNodup : (s.entries.map EntryRow.slug).Nodup
  ftsIdsNodup : (s.fts.map FtsRow.rowid).Nodup
  tagIdsNodup : (s.tags.map TagRow.id).Nodup
  tagNamesNodup : (s.tags.map TagRow.name).Nodup
  assocNodup : s.entryTags.Nodup
  statsIdsNodup : (s.stats.map StatsRow.entryId).Nodup
  entryIdsLt : ∀ e ∈ s.entries, e.id < s.nextEntryId
  ftsIdsLt : ∀ r ∈ s.fts, r.rowid < s.nextEntryId
  statsIdsLt : ∀ r ∈ s.stats, r.entryId < s.nextEntryId
  tagIdsLt : ∀ t ∈ s.tags, t.id < s.nextTagId

/-!
General-purpose list lemmas used by several claims.
-/

/-- With a duplicate-free key column, two rows sharing a key are the
same row. -/
theorem key_unique {α β : Type} (key : α → β) {l : List α}
    (hnd : (l.map key).Nodup) {x y : α} (hx : x ∈ l) (hy : y ∈ l)
    (hk : key x = key y) : x = y := by
  induction l with
  | nil => cases hx
  | cons a t ih =>
    rcases List.map_cons key a t ▸ hnd with -
    have hnd' := hnd
    rw [List.map_cons, List.nodup_cons] at hnd'
    rcases List.mem_cons.mp hx with rfl | hx'
    · rcases List.mem_cons.mp hy with rfl | hy'
      · rfl
      · exact absurd (hk ▸ List.mem_map_of_mem key hy') hnd'.1
    · rcases List.mem_cons.mp hy with rfl | hy'
      · exact absurd (hk ▸ List.mem_map_of_mem key hx') hnd'.1
      · exact ih hnd'.2 hx' hy'

/-- Finding by the key of a member of a key-duplicate-free list returns
that member. -/
theorem find_by_unique_key {α β : Type} [DecidableEq β] (key : α → β) {l : List α}
    (hnd : (l.map key).Nodup) {x : α} (hx : x ∈ l) :
    l.find? (fun r => key r = key x) = some x := by
  induction l with
  | nil => cases hx
  | cons a t ih =>
    have hnd' := hnd
    rw [List.map_cons, List.nodup_cons] at hnd'
    rcases List.mem_cons.mp hx with rfl | hx'
    · exact List.find?_cons_of_pos _ (by simp)
    · have hne : ¬ key a = key x := fun h =>
        hnd'.1 (h ▸ List.mem_map_of_mem key hx')
      rw [List.find?_cons_of_neg _ (by simp [hne])]
      exact ih hnd'.2 hx'

/-- When every element of the first list fails the predicate, `find?` on
the concatenation searches the second list. -/
theorem find?_append_left_none {α : Type} (p : α → Bool) {l₁ : List α} (l₂ : List α)
    (h : ∀ x ∈ l₁, p x = false) :
    (l₁ ++ l₂).find? p = l₂.find? p := by
  induction l₁ with
  | nil => rfl
  | cons a t ih =>
    rw [List.cons_append,
      List.find?_cons_of_neg _ (by simp [h a (List.mem_cons_self a t)])]
    exact ih fun x hx => h x (List.mem_cons_of_mem a hx)

/-- A map that preserves the searched predicate commutes with `find?`
on the found element. -/
theorem find?_map_of_pred_preserved {α : Type} (p : α → Bool) (g : α → α)
    (hg : ∀ r, p (g r) = p r) {l : List α} {x : α} (h : l.find? p = some x) :
    (l.map g).find? p = some (g x) := by
  induction l with
  | nil => cases h
  | cons a t ih =>
    rw [List.find?_cons] at h
    rw [List.map_cons, List.find?_cons, hg a]
    cases hpa : p a with
    | true => rw [hpa] at h; cases h; rfl
    | false => rw [hpa] at h; exact ih h

/-- Every output of `SearchEntries` comes from a matching FTS row, and
carries that row's id. -/
theorem search_out_spec {s : Store} {q : String} {f : Filter} {lim : Int}
    {now : Nat} {o : EntryOut} (h : o ∈ (SearchEntries s q f lim now).2) :
    ∃ rr ∈ s.fts, ftsRowMatches q rr = true ∧ o.row.id = rr.rowid := by
  simp only [SearchEntries] at h
  rcases List.mem_map.mp h with ⟨e, he, rfl⟩
  have he' := List.mem_of_mem_take he
  have he'' := List.mem_filter.mp he'
  rcases List.mem_filterMap.mp he''.1 with ⟨rr, hrr, hsome⟩
  have hrrf := List.mem_filter.mp hrr
  rcases Option.map_eq_some'.mp hsome with ⟨en, hfind, rfl⟩
  have hid : en.id = rr.rowid := by
    have := List.find?_some hfind
    exact of_decide_eq_true this
  exact ⟨rr, hrrf.1, hrrf.2, hid⟩

/-- The empty filter accepts every entry. -/
theorem entryMatchesFilter_empty (s : Store) (e : EntryRow) :
    entryMatchesFilter s {} e = true := by
  simp [entryMatchesFilter, matchesBase]

/-!
Claim C5.  The spec says the search and context limits are "clamped" to
[1,50]; the source replaces every out-of-range limit (including the
unset zero) with the default instead, so a request for 51 results is
answered with at most 10 (search) or 20 (context), not 50.
-/

/-- Shape test used to state that a response is a tool-level failure. -/
def isToolFailure (o : RpcOut) : Bool :=
  match o with
  | .result (.toolOutcome true _) => true
  | _ => false

/-- C5 counterexample: at the concrete limit 51 the source substitutes
the default (10 for search, 20 for context) where clamping to [1,50]
would give 50, so the claim as stated is false. -/
theorem c5_limit_counterexample :
    effSearchLimit 51 = 10 ∧ effContextLimit 51 = 20 ∧
    specClampLimit 51 = 50 ∧
    effSearchLimit 51 ≠ specClampLimit 51 ∧
    effContextLimit 51 ≠ specClampLimit 51 := by decide

/-- C5 (amended): the limit defaults to 10 (search) and 20 (context)
when unspecified; an out-of-range limit is replaced by that default
rather than clamped to the nearest bound; the effective limit always
lies in [1,50]; and the number of returned entries never exceeds the
effective limit. -/
theorem c5_limits :
    (∀ l : Int, 1 ≤ effSearchLimit l ∧ effSearchLimit l ≤ 50 ∧
      1 ≤ effContextLimit l ∧ effContextLimit l ≤ 50) ∧
    effSearchLimit ((({} : ToolArgs).limit).getD 10) = 10 ∧
    effContextLimit ((({} : ToolArgs).limit).getD 20) = 20 ∧
    (∀ l : Int, l ≤ 0 ∨ 50 < l → effSearchLimit l = 10 ∧ effContextLimit l = 20) ∧
    (∀ s q f l now, (SearchEntries s q f l now).2.length ≤ (effSearchLimit l).toNat) ∧
    (∀ s f l now, (GetEntriesByContext s f l now).2.length ≤ (effContextLimit l).toNat) := by
  refine ⟨?_, by decide, by decide, ?_, ?_, ?_⟩
  · intro l
    simp only [effSearchLimit, effContextLimit]
    by_cases h : l ≤ 0 ∨ 50 < l
    · rcases h with h | h <;> simp [h]
    · push_neg at h
      have h1 : ¬ (decide (l ≤ 0) || decide (l > 50)) = true := by
        simp; omega
      simp only [h1, if_false, Bool.false_eq_true]
      omega
  · intro l h
    simp only [effSearchLimit, effContextLimit]
    rcases h with h | h <;> simp [h]
  · intro s q f l now
    simp only [SearchEntries, List.length_map, List.length_take]
    exact min_le_left _ _
  · intro s f l now
    simp only [GetEntriesByContext, List.length_map, List.length_take]
    exact min_le_left _ _

/-!
Claim C8.  Unknown method names are indeed answered with the protocol
error -32601 (MethodNotFound).  But an unknown tool name in tools/call
and an unknown prompt name in prompts/get are answered with the
protocol error -32602, not with a successful result flagged as a
tool-level failure: `handleToolsCall` and `handlePromptsGet` both return
`rpcErr` in their default arms (the repository's own test for an unknown
prompt also expects a protocol error).
-/

/-- C8 counterexample: calling the unknown tool "bogus_tool" and the
unknown prompt "bogus-prompt" yields protocol-level errors, not
successful results marked as tool-level failures. -/
theorem c8_counterexample :
    (dispatch emptyStore "tools/call" { name := "bogus_tool" } 0).2 =
      .rpcError (-32602) "Unknown tool: bogus_tool" ∧
    isToolFailure (dispatch emptyStore "tools/call" { name := "bogus_tool" } 0).2 =
      false ∧
    (dispatch emptyStore "prompts/get" { name := "bogus-prompt" } 0).2 =
      .rpcError (-32602) "Unknown prompt: bogus-prompt" ∧
    isToolFailure (dispatch emptyStore "prompts/get" { name := "bogus-prompt" } 0).2 =
      false := by decide

/-- C8 (amended): a method name outside the fixed table is answered with
the MethodNotFound protocol error -32601; an unknown tool name in
tools/call and an unknown prompt name in prompts/get are answered with
the protocol error -32602 (carrying the failure text in the error
message), not with a tool-level failure result. -/
theorem c8_unknown_names (s : Store) (now : Nat) (m : String) (p : ReqParams)
    (hm : m ∉ methodNames) (tname pname : String) (args : ToolArgs)
    (slugArg : String) (ht : tname ∉ toolNames)
    (hp : pname ∉ ["apply-entry", "review-with-entry", "save-learnings"]) :
    dispatch s m p now = (s, .rpcError (-32601) ("Method not found: " ++ m)) ∧
    dispatch s "tools/call" { name := tname, args := args } now =
      (s, .rpcError (-32602) ("Unknown tool: " ++ tname)) ∧
    dispatch s "prompts/get" { name := pname, promptSlug := slugArg } now =
      (s, .rpcError (-32602) ("Unknown prompt: " ++ pname)) := by
  refine ⟨?_, ?_, ?_⟩
  · unfold dispatch
    split <;> simp_all [methodNames]
  · show handleToolsCall s tname args now = _
    unfold handleToolsCall
    split <;> simp_all [toolNames]
  · show handlePromptsGet s pname slugArg now = _
    unfold handlePromptsGet
    split <;> simp_all

/-!
Claim C9.  The spec (and the repository's tests,
TestResourcesReadHowToUseURI / TestResourcesListExcludesHowToUse /
TestResourcesTemplatesList) require a reserved always-readable
usage-guide resource at the URI mcpedia://how-to-use: served from a
built-in default body when no entry with that slug exists, overridden by
a user entry with that slug, excluded from the paginated listing, and
advertised as the first URI template.  The dispatcher in
`internal/mcp/mcp.go` implements none of this: `handleResourcesRead`
only accepts URIs under mcpedia://entries/ and rejects
mcpedia://how-to-use as invalid even when the entry exists,
`handleResourcesList` lists the how-to-use entry like any other, and
`handleResourcesTemplatesList` advertises a single template.  The code
contradicts its own tests, so this is a code bug.
-/

/-- C9 evaluation at the failing input: reading mcpedia://how-to-use
fails with a protocol error both on an empty store and after an entry
with slug how-to-use has been created; that entry does appear in the
resources listing; and only one URI template is advertised. -/
theorem c9_guide_missing :
    (dispatch emptyStore "resources/read" { uri := "mcpedia://how-to-use" } 0).2 =
      .rpcError (-32002) "Invalid resource URI: mcpedia://how-to-use" ∧
    ((let s1 := (toolCreateEntry emptyStore
        { slug := some "how-to-use", title := some "Custom"
          content := some "My custom guide." } 0).1
      (dispatch s1 "resources/read" { uri := "mcpedia://how-to-use" } 0).2 =
        .rpcError (-32002) "Invalid resource URI: mcpedia://how-to-use" ∧
      handleResourcesList s1 none =
        .result (.resourceList ["mcpedia://entries/how-to-use"] none)) :
      Prop) ∧
    handleResourcesTemplatesList =
      .result (.templatesList ["mcpedia://entries/\x7bslug\x7d"]) := by decide

/-- C8 witness at the concrete names bogus/method, bogus_tool and
bogus-prompt. -/
theorem c8_unknown_names_witness :
    "bogus/method" ∉ methodNames ∧ "bogus_tool" ∉ toolNames ∧
    "bogus-prompt" ∉ ["apply-entry", "review-with-entry", "save-learnings"] ∧
    (dispatch emptyStore "bogus/method" {} 0 =
        (emptyStore, .rpcError (-32601) ("Method not found: " ++ "bogus/method")) ∧
      dispatch emptyStore "tools/call" { name := "bogus_tool", args := {} } 0 =
        (emptyStore, .rpcError (-32602) ("Unknown tool: " ++ "bogus_tool")) ∧
      dispatch emptyStore "prompts/get" { name := "bogus-prompt", promptSlug := "" } 0 =
        (emptyStore, .rpcError (-32602) ("Unknown prompt: " ++ "bogus-prompt"))) :=
  ⟨by decide, by decide, by decide,
    c8_unknown_names emptyStore 0 "bogus/method" {} (by decide)
      "bogus_tool" "bogus-prompt" {} "" (by decide) (by decide)⟩

/-!
Claim C4.  Lock semantics: validation of the empty secret, single-holder
behaviour, the write gate on the three mutating tools, ungated reads,
and the unlock transitions, with the secret stored only as its hash.
-/

/-- C4: with `hash` abstracting SHA-256, on an unlocked store `sL` is
the store after `lock sec` and `sU` the store after the matching
`unlock sec`.  Locking with an empty secret fails, double-locking fails,
the three mutating tools fail with the Locked failure text on `sL` while
get/list/search/getByContext/getStats return the same outputs as on the
unlocked store, unlocking with a wrong secret fails InvalidToken,
unlocking an unlocked store fails NotLocked, and after the matching
unlock the gate passes and creates succeed again. -/
theorem c4_lock_semantics (hash : String → String) (s : Store) (sec wrong : String)
    (hsec : sec ≠ "") (hwrong : wrong ≠ "") (hne : hash wrong ≠ hash sec)
    (hun : s.lockActive = false) :
    let sL : Store := { s with lockActive := true, lockToken := hash sec }
    let sU : Store := { s with lockActive := false, lockToken := "" }
    Lock hash s "" = .error .validation ∧
    Lock hash s sec = .ok sL ∧
    Lock hash sL wrong = .error .alreadyLocked ∧
    IsLocked sL = true ∧
    (∀ args now, toolCreateEntry sL args now = (sL, toolErrorOut (dbErrText .locked ""))) ∧
    (∀ args now, toolUpdateEntry sL args now = (sL, toolErrorOut (dbErrText .locked ""))) ∧
    (∀ args, toolDeleteEntry sL args = (sL, toolErrorOut (dbErrText .locked ""))) ∧
    (∀ slug now, (GetEntry sL slug now).2 = (GetEntry s slug now).2) ∧
    (∀ f, ListEntries sL f = ListEntries s f) ∧
    (∀ q f lim now, (SearchEntries sL q f lim now).2 = (SearchEntries s q f lim now).2) ∧
    (∀ f lim now, (GetEntriesByContext sL f lim now).2 = (GetEntriesByContext s f lim now).2) ∧
    (∀ slug, GetStats sL slug = GetStats s slug) ∧
    Unlock hash sL wrong = .error .invalidToken ∧
    Unlock hash s sec = .error .notLocked ∧
    Unlock hash sL sec = .ok sU ∧
    IsLocked sU = false ∧
    checkLock sU = .ok () ∧
    (∀ e now, sU.entries.any (fun r => r.slug = e.slug) = false →
      e.content.length ≤ contentCap → ((CreateEntry sU e now).2).isOk = true) := by
  intro sL sU
  have hLock : Lock hash s sec = .ok sL := by
    simp only [Lock, hsec, hun, if_neg, if_false]
    simp [hsec]
  refine ⟨by simp [Lock], hLock, ?_, rfl, ?_, ?_, ?_, ?_, ?_, ?_, ?_, ?_, ?_, ?_, ?_,
    rfl, by simp [checkLock, IsLocked], ?_⟩
  · simp [Lock, hwrong]
  · intro args now
    simp [toolCreateEntry, checkLock, IsLocked]
  · intro args now
    simp [toolUpdateEntry, checkLock, IsLocked]
  · intro args
    simp [toolDeleteEntry, checkLock, IsLocked]
  · intro slug now
    unfold GetEntry
    have hfs : findBySlug sL slug = findBySlug s slug := rfl
    rw [hfs]
    cases findBySlug s slug <;> rfl
  · intro f
    rfl
  · intro q f lim now
    rfl
  · intro f lim now
    rfl
  · intro slug
    rfl
  · simp only [Unlock, hwrong, if_neg, IsLocked]
    simp [Ne.symm hne]
  · simp [Unlock, hsec, hun]
  · simp [Unlock, hsec]
  · intro e now hslug hlen
    simp only [CreateEntry, hslug, Bool.false_eq_true, if_false]
    have : ¬ contentCap < e.content.length := Nat.not_lt.mpr hlen
    simp only [this, if_false]
    rfl

/-- C4 witness: a one-entry store, the identity-tagged hash, secret
"secret" and wrong secret "wrong". -/
theorem c4_lock_semantics_witness :
    (let hsh : String → String := fun t => "H:" ++ t
     let s : Store := emptyStore
     ("secret" : String) ≠ "" ∧ ("wrong" : String) ≠ "" ∧
      hsh "wrong" ≠ hsh "secret" ∧ s.lockActive = false ∧
      (let sL : Store := { s with lockActive := true, lockToken := hsh "secret" }
       Lock hsh s "" = .error .validation ∧
       Lock hsh s "secret" = .ok sL ∧
       Lock hsh sL "wrong" = .error .alreadyLocked)) := by
  refine ⟨by decide, by decide, by decide, by decide, ?_⟩
  have h := c4_lock_semantics (fun t => "H:" ++ t) emptyStore "secret" "wrong"
    (by decide) (by decide) (by decide) (by decide)
  exact ⟨h.1, h.2.1, h.2.2.1⟩

/-!
Claim C6.  Update is a partial update: exactly the named fields change,
the version increments by one and the updated timestamp is refreshed
unconditionally (also on an empty field set), the created timestamp,
slug and id stay unchanged, and an absent tags field leaves the
association table untouched.
-/

/-- C6: after a successful `UpdateEntry`, looking the slug up again
yields a row whose named fields carry the new values, whose unnamed
fields retain their prior values, with version bumped by one, the
updated timestamp set to the update's clock and the created timestamp
unchanged; when the tags field is absent, the association table is
untouched. -/
theorem c6_partial_update (s : Store) (slug : String) (f : UpdateFields) (now : Nat)
    (e0 : EntryRow) (h0 : findBySlug s slug = some e0)
    (hok : (UpdateEntry s slug f now).2 = .ok ()) :
    ∃ e1, findBySlug (UpdateEntry s slug f now).1 slug = some e1 ∧
      e1.title = f.title.getD e0.title ∧
      e1.description = f.description.getD e0.description ∧
      e1.content = f.content.getD e0.content ∧
      e1.kind = f.kind.getD e0.kind ∧
      e1.language = f.language.getD e0.language ∧
      e1.domain = f.domain.getD e0.domain ∧
      e1.project = f.project.getD e0.project ∧
      e1.version = e0.version + 1 ∧
      e1.updatedAt = now ∧
      e1.createdAt = e0.createdAt ∧
      e1.slug = e0.slug ∧
      e1.id = e0.id ∧
      (f.tags = none → (UpdateEntry s slug f now).1.entryTags = s.entryTags) := by
  have hfind : ∀ su : Store,
      su.entries = s.entries.map (fun r => if r.id = e0.id then applyFields f r now else r) →
      findBySlug su slug = some (applyFields f e0 now) := by
    intro su hsu
    show su.entries.find? (fun e => e.slug = slug) = _
    rw [hsu]
    have hpres : ∀ r : EntryRow,
        (fun e : EntryRow => decide (e.slug = slug))
            ((fun r => if r.id = e0.id then applyFields f r now else r) r) =
          (fun e : EntryRow => decide (e.slug = slug)) r := by
      intro r
      by_cases hr : r.id = e0.id <;> simp [hr, applyFields]
    simpa using find?_map_of_pred_preserved _ _ hpres h0
  unfold UpdateEntry at hok ⊢
  rw [h0] at hok ⊢
  simp only [] at hok ⊢
  by_cases hc : contentCap < (f.content.getD e0.content).length
  · rw [if_pos hc] at hok
    exact absurd hok (by simp)
  · rw [if_neg hc] at hok ⊢
    cases hcur : (updateRows s e0 f now).entries.find? (fun r => r.id = e0.id) with
    | none =>
      rw [hcur] at hok
      exact absurd hok (by simp)
    | some cur =>
      simp only [] at hok ⊢
      refine ⟨applyFields f e0 now, ?_, rfl, rfl, rfl, rfl, rfl, rfl, rfl, rfl, rfl,
        rfl, rfl, rfl, ?_⟩
      · apply hfind
        rw [updateFinish_entries]
        rfl
      · intro hnone
        rw [updateFinish_entryTags_none _ _ _ _ _ hnone]
        rfl

/-- C6 witness: update the title of a one-entry store and observe the
frame conditions. -/
theorem c6_partial_update_witness :
    findBySlug (CreateEntry emptyStore { slug := "s", title := "Old", content := "c" } 4).1 "s" =
      some {
        id := 1
        slug := "s"
        title := "Old"
        description := ""
        content := "c"
        kind := "skill"
        language := ""
        domain := ""
        project := ""
        version := 1
        createdAt := 4
        updatedAt := 4 } ∧
    (UpdateEntry (CreateEntry emptyStore { slug := "s", title := "Old", content := "c" } 4).1
        "s" { title := some "New" } 9).2 = .ok () ∧
    (∃ e1, findBySlug
        (UpdateEntry (CreateEntry emptyStore { slug := "s", title := "Old", content := "c" } 4).1
          "s" { title := some "New" } 9).1 "s" = some e1 ∧
      e1.title = (some "New").getD "Old" ∧
      e1.description = (none : Option String).getD "" ∧
      e1.content = (none : Option String).getD "c" ∧
      e1.kind = (none : Option String).getD "skill" ∧
      e1.language = (none : Option String).getD "" ∧
      e1.domain = (none : Option String).getD "" ∧
      e1.project = (none : Option String).getD "" ∧
      e1.version = 1 + 1 ∧
      e1.updatedAt = 9 ∧
      e1.createdAt = 4 ∧
      e1.slug = "s" ∧
      e1.id = 1 ∧
      (({ title := some "New" } : UpdateFields).tags = none →
        (UpdateEntry (CreateEntry emptyStore { slug := "s", title := "Old", content := "c" } 4).1
          "s" { title := some "New" } 9).1.entryTags =
          (CreateEntry emptyStore { slug := "s", title := "Old", content := "c" } 4).1.entryTags)) :=
  ⟨by decide, by decide,
    c6_partial_update (CreateEntry emptyStore { slug := "s", title := "Old", content := "c" } 4).1
      "s" { title := some "New" } 9
      { id := 1, slug := "s", title := "Old", description := "", content := "c"
        kind := "skill", language := "", domain := "", project := ""
        version := 1, createdAt := 4, updatedAt := 4 }
      (by decide) (by decide)⟩

/-!
Claim C2.  Immediately after a successful create: version 1, zeroed
stats row, the entry is found by direct slug lookup and by a full-text
search matching its content, and the transaction is all-or-nothing.
-/

/-- C2: a successful `CreateEntry` stores the entry with version 1 and
both timestamps set to the creation clock, a direct lookup (and
`GetEntry`) finds it, its stats row exists zeroed with null event
timestamps, any single-term search whose term occurs in the new entry's
title, description or content returns it (whenever the matching rows fit
the effective limit), and a failing create leaves the store unchanged. -/
theorem c2_create_postconditions (s : Store) (e : EntryInput) (now : Nat)
    (hwf : WF s) (r : EntryRow) (hok : (CreateEntry s e now).2 = .ok r) :
    r.version = 1 ∧ r.createdAt = now ∧ r.updatedAt = now ∧
    findBySlug (CreateEntry s e now).1 e.slug = some r ∧
    (∀ n2, (GetEntry (CreateEntry s e now).1 e.slug n2).2 =
      .ok ⟨r, getTagsForEntry (CreateEntry s e now).1 r.id⟩) ∧
    statsFor (CreateEntry s e now).1 r.id = some ⟨r.id, 0, 0, 0, none, none, none⟩ ∧
    (∀ q lim n2,
      ftsRowMatches q ⟨r.id, e.title, e.description, e.content⟩ = true →
      (((CreateEntry s e now).1.fts.filter (ftsRowMatches q)).length ≤
        (effSearchLimit lim).toNat) →
      ∃ o ∈ (SearchEntries (CreateEntry s e now).1 q {} lim n2).2, o.row.id = r.id) ∧
    (∀ e2 n2, ((CreateEntry s e2 n2).2).isOk = false → (CreateEntry s e2 n2).1 = s) := by
  have hatomic : ∀ e2 n2, ((CreateEntry s e2 n2).2).isOk = false →
      (CreateEntry s e2 n2).1 = s := by
    intro e2 n2 h
    unfold CreateEntry at h ⊢
    by_cases h1 : s.entries.any (fun x => x.slug = e2.slug)
    · simp [h1]
    · by_cases h2 : contentCap < e2.content.length
      · simp [h1, h2]
      · exfalso
        rw [if_neg h1, if_neg h2] at h
        simp [Except.isOk, Except.toBool] at h
  unfold CreateEntry at hok ⊢
  by_cases h1 : s.entries.any (fun x => x.slug = e.slug)
  · rw [if_pos h1] at hok
    exact absurd hok (by simp)
  · rw [if_neg h1] at hok ⊢
    by_cases h2 : contentCap < e.content.length
    · rw [if_pos h2] at hok
      exact absurd hok (by simp)
    · rw [if_neg h2] at hok ⊢
      simp only [] at hok ⊢
      have hre : r = {
          id := s.nextEntryId
          slug := e.slug
          title := e.title
          description := e.description
          content := e.content
          kind := defaultStr e.kind "skill"
          language := e.language
          domain := e.domain
          project := e.project
          version := 1
          createdAt := now
          updatedAt := now } := by
        have := hok
        simp only [Except.ok.injEq] at this
        exact this.symm
      subst hre
      have hnoold : ∀ x ∈ s.entries, ¬ (fun e' : EntryRow => decide (e'.slug = e.slug)) x = true := by
        rw [← List.any_eq_false]
        exact Bool.of_not_eq_true h1
      have hfindBySlug : ∀ su : Store, su.entries = s.entries ++ [{
          id := s.nextEntryId, slug := e.slug, title := e.title
          description := e.description, content := e.content
          kind := defaultStr e.kind "skill", language := e.language
          domain := e.domain, project := e.project, version := 1
          createdAt := now, updatedAt := now }] →
          findBySlug su e.slug = some {
            id := s.nextEntryId, slug := e.slug, title := e.title
            description := e.description, content := e.content
            kind := defaultStr e.kind "skill", language := e.language
            domain := e.domain, project := e.project, version := 1
            createdAt := now, updatedAt := now } := by
        intro su hsu
        show su.entries.find? _ = _
        rw [hsu, find?_append_left_none _ _ (fun x hx => by
          have := hnoold x hx
          simpa using this)]
        simp [List.find?_cons]
      refine ⟨rfl, rfl, rfl, ?_, ?_, ?_, ?_, hatomic⟩
      · exact hfindBySlug _ (setTags_entries _ _ _)
      · intro n2
        unfold GetEntry
        rw [hfindBySlug _ (setTags_entries _ _ _)]
      · show (statsFor (setTags _ _ _) _) = _
        unfold statsFor
        rw [show (setTags { s with
            entries := s.entries ++ [_], fts := s.fts ++ [_]
            stats := s.stats ++ [(⟨s.nextEntryId, 0, 0, 0, none, none, none⟩ : StatsRow)]
            nextEntryId := s.nextEntryId + 1 } s.nextEntryId e.tags).stats =
          s.stats ++ [(⟨s.nextEntryId, 0, 0, 0, none, none, none⟩ : StatsRow)]
          from setTags_stats _ _ _]
        rw [find?_append_left_none _ _ (fun x hx => by
          have hlt := hwf.statsIdsLt x hx
          simp only [decide_eq_false_iff_not]
          omega)]
        simp [List.find?_cons]
      · intro q lim n2 hq hcount
        set row : EntryRow := {
          id := s.nextEntryId, slug := e.slug, title := e.title
          description := e.description, content := e.content
          kind := defaultStr e.kind "skill", language := e.language
          domain := e.domain, project := e.project, version := 1
          createdAt := now, updatedAt := now } with hrow
        set s' : Store := (setTags { s with
          entries := s.entries ++ [row]
          fts := s.fts ++ [(⟨s.nextEntryId, e.title, e.description, e.content⟩ : FtsRow)]
          stats := s.stats ++ [(⟨s.nextEntryId, 0, 0, 0, none, none, none⟩ : StatsRow)]
          nextEntryId := s.nextEntryId + 1 } s.nextEntryId e.tags) with hs'
        have hfts : s'.fts = s.fts ++ [(⟨s.nextEntryId, e.title, e.description, e.content⟩ : FtsRow)] :=
          setTags_fts _ _ _
        have hents : s'.entries = s.entries ++ [row] := setTags_entries _ _ _
        have hmemf : (⟨s.nextEntryId, e.title, e.description, e.content⟩ : FtsRow) ∈
            s'.fts.filter (ftsRowMatches q) := by
          refine List.mem_filter.mpr ⟨?_, hq⟩
          rw [hfts]
          exact List.mem_append_right _ (List.mem_singleton.mpr rfl)
        have hfindid : s'.entries.find?
            (fun x => x.id = (⟨s.nextEntryId, e.title, e.description, e.content⟩ : FtsRow).rowid) =
            some row := by
          rw [hents, find?_append_left_none _ _ (fun x hx => by
            have hlt := hwf.entryIdsLt x hx
            simp only [decide_eq_false_iff_not]
            omega)]
          simp [List.find?_cons]
        have hjoin : ({ row with content := "" } : EntryRow) ∈
            (s'.fts.filter (ftsRowMatches q)).filterMap (fun rr =>
              (s'.entries.find? (fun x => x.id = rr.rowid)).map
                (fun en => ({ en with content := "" } : EntryRow))) := by
          refine List.mem_filterMap.mpr ⟨_, hmemf, ?_⟩
          rw [hfindid]
          rfl
        have hfilterall : ((s'.fts.filter (ftsRowMatches q)).filterMap (fun rr =>
              (s'.entries.find? (fun x => x.id = rr.rowid)).map
                (fun en => ({ en with content := "" } : EntryRow)))).filter
              (entryMatchesFilter s' {}) =
            (s'.fts.filter (ftsRowMatches q)).filterMap (fun rr =>
              (s'.entries.find? (fun x => x.id = rr.rowid)).map
                (fun en => ({ en with content := "" } : EntryRow))) := by
          apply List.filter_eq_self.mpr
          intro a _
          exact entryMatchesFilter_empty s' a
        refine ⟨⟨{ row with content := "" },
          getTagsForEntry s' ({ row with content := "" } : EntryRow).id⟩, ?_, rfl⟩
        show _ ∈ (SearchEntries s' q {} lim n2).2
        simp only [SearchEntries]
        apply List.mem_map_of_mem
        rw [hfilterall, List.take_of_length_le]
        · exact hjoin
        · calc ((s'.fts.filter (ftsRowMatches q)).filterMap _).length ≤
              (s'.fts.filter (ftsRowMatches q)).length := List.length_filterMap_le _ _
            _ ≤ (effSearchLimit lim).toNat := hcount

/-- C2 witness: create one entry in the empty store and observe the
postconditions, including a search hit on the term "w" occurring only in
its fields. -/
theorem c2_create_postconditions_witness :
    WF emptyStore ∧
    (CreateEntry emptyStore
        { slug := "s", title := "T w", description := "d", content := "c w" } 5).2 =
      .ok {
        id := 1
        slug := "s"
        title := "T w"
        description := "d"
        content := "c w"
        kind := "skill"
        language := ""
        domain := ""
        project := ""
        version := 1
        createdAt := 5
        updatedAt := 5 } ∧
    ({
        id := 1
        slug := "s"
        title := "T w"
        description := "d"
        content := "c w"
        kind := "skill"
        language := ""
        domain := ""
        project := ""
        version := 1
        createdAt := 5
        updatedAt := 5 } : EntryRow).version = 1 ∧
    findBySlug (CreateEntry emptyStore
        { slug := "s", title := "T w", description := "d", content := "c w" } 5).1 "s" =
      some {
        id := 1
        slug := "s"
        title := "T w"
        description := "d"
        content := "c w"
        kind := "skill"
        language := ""
        domain := ""
        project := ""
        version := 1
        createdAt := 5
        updatedAt := 5 } ∧
    statsFor (CreateEntry emptyStore
        { slug := "s", title := "T w", description := "d", content := "c w" } 5).1 1 =
      some ⟨1, 0, 0, 0, none, none, none⟩ ∧
    (∃ o ∈ (SearchEntries (CreateEntry emptyStore
        { slug := "s", title := "T w", description := "d", content := "c w" } 5).1
        "w" {} 0 7).2, o.row.id = 1) := by
  have hwf : WF emptyStore := by
    constructor <;> decide
  have hok : (CreateEntry emptyStore
      { slug := "s", title := "T w", description := "d", content := "c w" } 5).2 =
      .ok {
        id := 1
        slug := "s"
        title := "T w"
        description := "d"
        content := "c w"
        kind := "skill"
        language := ""
        domain := ""
        project := ""
        version := 1
        createdAt := 5
        updatedAt := 5 } := by decide
  have h := c2_create_postconditions emptyStore
    { slug := "s", title := "T w", description := "d", content := "c w" } 5 hwf _ hok
  exact ⟨hwf, hok, h.1, h.2.2.2.1, h.2.2.2.2.2.1,
    h.2.2.2.2.2.2.1 "w" 0 7 (by decide) (by decide)⟩

/-!
Claim C3.  Delete fails NotFound on an absent slug; otherwise it removes
the FTS row, the entry row and (via cascade) the associations and the
stats row in one step, after which direct lookup, stats lookup and
search all reflect the removal and no association of the deleted entry
remains.
-/

/-- C3: deleting an absent slug fails NotFound and leaves the store
unchanged; deleting a present slug succeeds, and afterwards the slug no
longer resolves (`GetEntry` fails NotFound), the FTS row for the
entry's handle is gone, no search output carries the deleted handle,
`GetStats` fails NotFound, the stats row is gone, and no association of
the deleted entry remains (so no tag count is attributable to it). -/
theorem c3_delete_cascade (s : Store) (hwf : WF s) (slug : String) :
    (findBySlug s slug = none → DeleteEntry s slug = (s, .error .notFound)) ∧
    (∀ e0, findBySlug s slug = some e0 →
      (DeleteEntry s slug).2 = .ok () ∧
      findBySlug (DeleteEntry s slug).1 slug = none ∧
      (∀ n2, (GetEntry (DeleteEntry s slug).1 slug n2).2 = .error .notFound) ∧
      ftsFor (DeleteEntry s slug).1 e0.id = none ∧
      (∀ q g lim n2 o, o ∈ (SearchEntries (DeleteEntry s slug).1 q g lim n2).2 →
        o.row.id ≠ e0.id) ∧
      GetStats (DeleteEntry s slug).1 slug = .error .notFound ∧
      statsFor (DeleteEntry s slug).1 e0.id = none ∧
      (DeleteEntry s slug).1.entryTags.filter (fun a => a.entryId = e0.id) = []) := by
  constructor
  · intro h
    unfold DeleteEntry
    rw [h]
  · intro e0 h0
    have he0mem : e0 ∈ s.entries := List.mem_of_find?_eq_some h0
    have he0slug : e0.slug = slug := by
      have := List.find?_some h0
      exact of_decide_eq_true this
    have hfind_none : findBySlug (DeleteEntry s slug).1 slug = none := by
      unfold DeleteEntry
      rw [h0]
      apply List.find?_eq_none.mpr
      intro x hx
      rcases List.mem_filter.mp hx with ⟨hxmem, hxid⟩
      intro hxslug
      have hxslug' : x.slug = slug := of_decide_eq_true hxslug
      have hxe : x = e0 := key_unique EntryRow.slug hwf.slugsNodup hxmem he0mem
        (by rw [hxslug', he0slug])
      rw [hxe] at hxid
      simp at hxid
    refine ⟨?_, hfind_none, ?_, ?_, ?_, ?_, ?_, ?_⟩
    · unfold DeleteEntry
      rw [h0]
    · intro n2
      unfold GetEntry
      rw [hfind_none]
    · unfold DeleteEntry at hfind_none ⊢
      rw [h0] at hfind_none ⊢
      apply List.find?_eq_none.mpr
      intro x hx
      rcases List.mem_filter.mp hx with ⟨_, hxid⟩
      simp only [decide_eq_true_eq] at hxid ⊢
      simpa using hxid
    · intro q g lim n2 o ho
      rcases search_out_spec ho with ⟨rr, hrrmem, _, hid⟩
      unfold DeleteEntry at hrrmem
      rw [h0] at hrrmem
      rcases List.mem_filter.mp hrrmem with ⟨_, hrrid⟩
      rw [hid]
      simpa using hrrid
    · unfold GetStats
      rw [hfind_none]
    · unfold DeleteEntry at hfind_none ⊢
      rw [h0] at hfind_none ⊢
      apply List.find?_eq_none.mpr
      intro x hx
      rcases List.mem_filter.mp hx with ⟨_, hxid⟩
      simp only [decide_eq_true_eq] at hxid ⊢
      simpa using hxid
    · unfold DeleteEntry
      rw [h0]
      apply List.filter_eq_nil_iff.mpr
      intro a ha
      rcases List.mem_filter.mp ha with ⟨_, haid⟩
      simp only [decide_eq_true_eq] at haid ⊢
      simpa using haid

/-- C3 witness: a two-entry store; delete one entry and observe the
cascade, and delete an absent slug and observe NotFound. -/
theorem c3_delete_cascade_witness :
    WF (CreateEntry (CreateEntry emptyStore
        { slug := "a", title := "A", content := "ca", tags := ["t"] } 1).1
        { slug := "b", title := "B", content := "cb", tags := ["t"] } 2).1 ∧
    findBySlug (CreateEntry (CreateEntry emptyStore
        { slug := "a", title := "A", content := "ca", tags := ["t"] } 1).1
        { slug := "b", title := "B", content := "cb", tags := ["t"] } 2).1 "a" =
      some {
        id := 1
        slug := "a"
        title := "A"
        description := ""
        content := "ca"
        kind := "skill"
        language := ""
        domain := ""
        project := ""
        version := 1
        createdAt := 1
        updatedAt := 1 } ∧
    ((DeleteEntry (CreateEntry (CreateEntry emptyStore
        { slug := "a", title := "A", content := "ca", tags := ["t"] } 1).1
        { slug := "b", title := "B", content := "cb", tags := ["t"] } 2).1 "a").2 = .ok () ∧
      findBySlug (DeleteEntry (CreateEntry (CreateEntry emptyStore
        { slug := "a", title := "A", content := "ca", tags := ["t"] } 1).1
        { slug := "b", title := "B", content := "cb", tags := ["t"] } 2).1 "a").1 "a" = none ∧
      ftsFor (DeleteEntry (CreateEntry (CreateEntry emptyStore
        { slug := "a", title := "A", content := "ca", tags := ["t"] } 1).1
        { slug := "b", title := "B", content := "cb", tags := ["t"] } 2).1 "a").1 1 = none ∧
      GetStats (DeleteEntry (CreateEntry (CreateEntry emptyStore
        { slug := "a", title := "A", content := "ca", tags := ["t"] } 1).1
        { slug := "b", title := "B", content := "cb", tags := ["t"] } 2).1 "a").1 "a" =
        .error .notFound ∧
      (DeleteEntry (CreateEntry (CreateEntry emptyStore
        { slug := "a", title := "A", content := "ca", tags := ["t"] } 1).1
        { slug := "b", title := "B", content := "cb", tags := ["t"] } 2).1 "a").1.entryTags.filter
        (fun a => a.entryId = 1) = []) := by
  have hwf : WF (CreateEntry (CreateEntry emptyStore
      { slug := "a", title := "A", content := "ca", tags := ["t"] } 1).1
      { slug := "b", title := "B", content := "cb", tags := ["t"] } 2).1 := by
    constructor <;> decide
  have h0 : findBySlug (CreateEntry (CreateEntry emptyStore
      { slug := "a", title := "A", content := "ca", tags := ["t"] } 1).1
      { slug := "b", title := "B", content := "cb", tags := ["t"] } 2).1 "a" =
      some {
        id := 1
        slug := "a"
        title := "A"
        description := ""
        content := "ca"
        kind := "skill"
        language := ""
        domain := ""
        project := ""
        version := 1
        createdAt := 1
        updatedAt := 1 } := by decide
  have h := (c3_delete_cascade _ hwf "a").2 _ h0
  exact ⟨hwf, h0, h.1, h.2.1, h.2.2.2.1, h.2.2.2.2.2.1, h.2.2.2.2.2.2.2⟩

/-!
Claim C10.  Tag lists attached to returned entries: ordered by name,
duplicate-free, and empty (rather than absent) when the entry has no
associations.
-/

/-- Totality of the code-point order on character lists. -/
theorem strLeChars_total : ∀ x y : List Char,
    strLeChars x y = true ∨ strLeChars y x = true := by
  intro x
  induction x with
  | nil => intro y; left; rfl
  | cons a as ih =>
    intro y
    cases y with
    | nil => right; rfl
    | cons b bs =>
      rcases Nat.lt_trichotomy a.toNat b.toNat with h | h | h
      · left; simp [strLeChars, h]
      · rcases ih bs with h2 | h2
        · left; simp [strLeChars, h, h2]
        · right; simp [strLeChars, h.symm, h2]
      · right; simp [strLeChars, h]

/-- Transitivity of the code-point order on character lists. -/
theorem strLeChars_trans : ∀ x y z : List Char, strLeChars x y = true →
    strLeChars y z = true → strLeChars x z = true := by
  intro x
  induction x with
  | nil => intro y z _ _; rfl
  | cons a as ih =>
    intro y z hxy hyz
    cases y with
    | nil => simp [strLeChars] at hxy
    | cons b bs =>
      cases z with
      | nil => simp [strLeChars] at hyz
      | cons c cs =>
        simp only [strLeChars, Bool.or_eq_true, Bool.and_eq_true,
          decide_eq_true_eq] at hxy hyz ⊢
        rcases hxy with h1 | ⟨h1, h1'⟩
        · rcases hyz with h2 | ⟨h2, h2'⟩
          · left; omega
          · left; omega
        · rcases hyz with h2 | ⟨h2, h2'⟩
          · left; omega
          · right; exact ⟨by omega, ih bs cs h1' h2'⟩

instance : IsTotal String nameLe :=
  ⟨fun a b => strLeChars_total a.data b.data⟩

instance : IsTrans String nameLe :=
  ⟨fun _ _ _ hab hbc => strLeChars_trans _ _ _ hab hbc⟩

/-- The tag list of an entry is sorted by name. -/
theorem getTagsForEntry_sorted (s : Store) (eid : Nat) :
    (getTagsForEntry s eid).Sorted nameLe := by
  unfold getTagsForEntry
  exact List.sorted_insertionSort nameLe _

/-- In a well-formed store the tag list of an entry has no duplicate
names. -/
theorem getTagsForEntry_nodup (s : Store) (hwf : WF s) (eid : Nat) :
    (getTagsForEntry s eid).Nodup := by
  unfold getTagsForEntry
  apply (List.perm_insertionSort _ _).nodup_iff.mpr
  apply List.Nodup.filterMap _ hwf.assocNodup
  intro a a' n hn hn'
  by_cases ha : a.entryId = eid
  case neg => simp [ha] at hn
  by_cases ha' : a'.entryId = eid
  case neg => simp [ha'] at hn'
  simp only [ha, ha', if_true, Option.mem_def] at hn hn'
  rcases Option.map_eq_some'.mp hn with ⟨t, htf, htn⟩
  rcases Option.map_eq_some'.mp hn' with ⟨t', htf', htn'⟩
  have htmem : t ∈ s.tags := List.mem_of_find?_eq_some htf
  have htmem' : t' ∈ s.tags := List.mem_of_find?_eq_some htf'
  have htid : t.id = a.tagId := by
    have h2 := List.find?_some htf
    exact of_decide_eq_true h2
  have htid' : t'.id = a'.tagId := by
    have h2 := List.find?_some htf'
    exact of_decide_eq_true h2
  have htt : t = t' := key_unique TagRow.name hwf.tagNamesNodup htmem htmem'
    (by rw [htn, htn'])
  cases a
  cases a'
  simp only at ha ha' htid htid'
  subst ha
  subst ha'
  rw [← htid, ← htid', htt]

/-- An entry with no associations is given an empty tag list. -/
theorem getTagsForEntry_empty (s : Store) (eid : Nat)
    (h : s.entryTags.filter (fun a => a.entryId = eid) = []) :
    getTagsForEntry s eid = [] := by
  unfold getTagsForEntry
  have hbase : (s.entryTags.filterMap fun a =>
      if a.entryId = eid then (s.tags.find? (fun t => t.id = a.tagId)).map TagRow.name
      else none) = [] := by
    apply List.filterMap_eq_nil_iff.mpr
    intro a ha
    by_cases hae : a.entryId = eid
    · exfalso
      have : a ∈ s.entryTags.filter (fun a => a.entryId = eid) :=
        List.mem_filter.mpr ⟨ha, by simp [hae]⟩
      rw [h] at this
      cases this
    · simp [hae]
  rw [hbase]
  rfl

/-- C10: in a well-formed store, for every entry id the tag-name list is
sorted ascending with no duplicate names and is empty (not absent) when
the entry has no associations; and every entry returned by `GetEntry`,
`ListEntries`, `SearchEntries`, `GetEntriesByContext` or `AllEntries`
carries exactly that list. -/
theorem c10_tag_lists (s : Store) (hwf : WF s) :
    (∀ eid, (getTagsForEntry s eid).Sorted nameLe ∧ (getTagsForEntry s eid).Nodup ∧
      (s.entryTags.filter (fun a => a.entryId = eid) = [] →
        getTagsForEntry s eid = [])) ∧
    (∀ slug now o, (GetEntry s slug now).2 = .ok o →
      o.tags = getTagsForEntry s o.row.id) ∧
    (∀ f o, o ∈ ListEntries s f → o.tags = getTagsForEntry s o.row.id) ∧
    (∀ q f lim now o, o ∈ (SearchEntries s q f lim now).2 →
      o.tags = getTagsForEntry s o.row.id) ∧
    (∀ f lim now o, o ∈ (GetEntriesByContext s f lim now).2 →
      o.tags = getTagsForEntry s o.row.id) ∧
    (∀ o, o ∈ AllEntries s → o.tags = getTagsForEntry s o.row.id) := by
  refine ⟨fun eid => ⟨getTagsForEntry_sorted s eid, getTagsForEntry_nodup s hwf eid,
    getTagsForEntry_empty s eid⟩, ?_, ?_, ?_, ?_, ?_⟩
  · intro slug now o hok
    unfold GetEntry at hok
    cases h : findBySlug s slug with
    | none => rw [h] at hok; cases hok
    | some e =>
      rw [h] at hok
      simp only [Except.ok.injEq] at hok
      rw [← hok]
  · intro f o ho
    unfold ListEntries at ho
    rcases List.mem_map.mp ho with ⟨e, _, rfl⟩
    rfl
  · intro q f lim now o ho
    simp only [SearchEntries] at ho
    rcases List.mem_map.mp ho with ⟨e, _, rfl⟩
    rfl
  · intro f lim now o ho
    simp only [GetEntriesByContext] at ho
    rcases List.mem_map.mp ho with ⟨e, _, rfl⟩
    rfl
  · intro o ho
    unfold AllEntries at ho
    rcases List.mem_map.mp ho with ⟨e, _, rfl⟩
    rfl

/-- C10 witness: the tag list of the entry created with unsorted,
duplicated and blank tag names, and the empty tag list of an entry
created with none. -/
theorem c10_tag_lists_witness :
    WF (CreateEntry (CreateEntry emptyStore
        { slug := "a", title := "A", content := "ca", tags := ["zz", "aa", "zz", " "] } 1).1
        { slug := "b", title := "B", content := "cb" } 2).1 ∧
    (getTagsForEntry (CreateEntry (CreateEntry emptyStore
        { slug := "a", title := "A", content := "ca", tags := ["zz", "aa", "zz", " "] } 1).1
        { slug := "b", title := "B", content := "cb" } 2).1 1).Sorted nameLe ∧
    (getTagsForEntry (CreateEntry (CreateEntry emptyStore
        { slug := "a", title := "A", content := "ca", tags := ["zz", "aa", "zz", " "] } 1).1
        { slug := "b", title := "B", content := "cb" } 2).1 1).Nodup ∧
    getTagsForEntry (CreateEntry (CreateEntry emptyStore
        { slug := "a", title := "A", content := "ca", tags := ["zz", "aa", "zz", " "] } 1).1
        { slug := "b", title := "B", content := "cb" } 2).1 1 = ["aa", "zz"] ∧
    getTagsForEntry (CreateEntry (CreateEntry emptyStore
        { slug := "a", title := "A", content := "ca", tags := ["zz", "aa", "zz", " "] } 1).1
        { slug := "b", title := "B", content := "cb" } 2).1 2 = [] := by
  have hwf : WF (CreateEntry (CreateEntry emptyStore
      { slug := "a", title := "A", content := "ca", tags := ["zz", "aa", "zz", " "] } 1).1
      { slug := "b", title := "B", content := "cb" } 2).1 := by
    constructor <;> decide
  have h := c10_tag_lists _ hwf
  exact ⟨hwf, (h.1 1).1, (h.1 1).2.1, by decide, (h.1 2).2.2 (by decide)⟩

/-!
Claim C1.  The FTS row of an entry always mirrors the entry's current
title/description/content after create and update, is absent after
delete, and search behaves accordingly: a term matching only the old
content of an updated entry yields no hit for it, a term matching only
the new row yields exactly that entry.
-/

/-- The dynamic UPDATE keeps the id column. -/
theorem updateRows_map_id (s : Store) (e0 : EntryRow) (f : UpdateFields) (now : Nat) :
    (s.entries.map (fun r => if r.id = e0.id then applyFields f r now else r)).map
      EntryRow.id = s.entries.map EntryRow.id := by
  rw [List.map_map]
  apply List.map_congr_left
  intro r _
  by_cases hr : r.id = e0.id <;> simp [hr, applyFields, Function.comp]

/-- In a well-formed store the FTS re-read of `UpdateEntry` returns the
rewritten row. -/
theorem updateRows_find_id (s : Store) (hwf : WF s) (e0 : EntryRow)
    (he0 : e0 ∈ s.entries) (f : UpdateFields) (now : Nat) :
    (updateRows s e0 f now).entries.find? (fun r => r.id = e0.id) =
      some (applyFields f e0 now) := by
  have hmem : applyFields f e0 now ∈ (updateRows s e0 f now).entries := by
    show _ ∈ s.entries.map _
    have h2 := List.mem_map_of_mem
      (fun r => if r.id = e0.id then applyFields f r now else r) he0
    simpa using h2
  have hnd : ((updateRows s e0 f now).entries.map EntryRow.id).Nodup := by
    show ((s.entries.map _).map EntryRow.id).Nodup
    rw [updateRows_map_id]
    exact hwf.entryIdsNodup
  exact find_by_unique_key EntryRow.id hnd hmem

/-- Success analysis of `UpdateEntry`: a successful call factors through
`updateFinish` on the FTS re-read. -/
theorem updateEntry_ok_cases (s : Store) (slug : String) (f : UpdateFields)
    (now : Nat) (hok : (UpdateEntry s slug f now).2 = .ok ()) :
    ∃ e0 cur0, findBySlug s slug = some e0 ∧
      ¬ contentCap < (f.content.getD e0.content).length ∧
      (updateRows s e0 f now).entries.find? (fun r => r.id = e0.id) = some cur0 ∧
      UpdateEntry s slug f now =
        (updateFinish (updateRows s e0 f now) e0 cur0 f now, .ok ()) := by
  cases h0 : findBySlug s slug with
  | none =>
    unfold UpdateEntry at hok
    rw [h0] at hok
    simp at hok
  | some e0 =>
    by_cases hc : contentCap < (f.content.getD e0.content).length
    · unfold UpdateEntry at hok
      rw [h0] at hok
      simp only [] at hok
      rw [if_pos hc] at hok
      simp at hok
    · cases hcur : (updateRows s e0 f now).entries.find? (fun r => r.id = e0.id) with
      | none =>
        unfold UpdateEntry at hok
        rw [h0] at hok
        simp only [] at hok
        rw [if_neg hc, hcur] at hok
        simp at hok
      | some cur0 =>
        refine ⟨e0, cur0, rfl, hc, hcur, ?_⟩
        unfold UpdateEntry
        rw [h0]
        simp only []
        rw [if_neg hc, hcur]

/-- Direct lookup after the tail of a successful update returns the
rewritten row. -/
theorem updateFinish_findBySlug (s : Store) (slug : String) (f : UpdateFields)
    (now : Nat) (e0 cur0 : EntryRow) (h0 : findBySlug s slug = some e0) :
    findBySlug (updateFinish (updateRows s e0 f now) e0 cur0 f now) slug =
      some (applyFields f e0 now) := by
  show (updateFinish (updateRows s e0 f now) e0 cur0 f now).entries.find? _ = _
  rw [updateFinish_entries]
  show (s.entries.map _).find? _ = _
  have hpres : ∀ r : EntryRow,
      (fun e : EntryRow => decide (e.slug = slug))
          ((fun r => if r.id = e0.id then applyFields f r now else r) r) =
        (fun e : EntryRow => decide (e.slug = slug)) r := by
    intro r
    by_cases hr : r.id = e0.id <;> simp [hr, applyFields]
  simpa using find?_map_of_pred_preserved _ _ hpres h0

/-- The effective search limit is at least one result. -/
theorem effSearchLimit_toNat_pos (lim : Int) : 1 ≤ (effSearchLimit lim).toNat := by
  unfold effSearchLimit
  split
  · decide
  · next h =>
    simp only [Bool.or_eq_true, decide_eq_true_eq, not_or] at h
    omega

/-- C1: in a well-formed store, after a successful create the FTS row of
the new handle carries exactly the stored title/description/content;
after a successful update the FTS row of the updated entry's handle
carries exactly its current fields; after delete the FTS row of the
deleted handle is gone; and after an update a search for a term not
matching the entry's current FTS row yields no hit for that entry, while
a search (with no filters) for a term matching only that row returns
exactly that entry. -/
theorem c1_index_sync (s : Store) (hwf : WF s) :
    (∀ e now r, (CreateEntry s e now).2 = .ok r →
      ftsFor (CreateEntry s e now).1 r.id =
        some ⟨r.id, r.title, r.description, r.content⟩) ∧
    (∀ slug f now, (UpdateEntry s slug f now).2 = .ok () →
      ∃ cur, findBySlug (UpdateEntry s slug f now).1 slug = some cur ∧
        ftsFor (UpdateEntry s slug f now).1 cur.id =
          some ⟨cur.id, cur.title, cur.description, cur.content⟩) ∧
    (∀ slug e0, findBySlug s slug = some e0 →
      ftsFor (DeleteEntry s slug).1 e0.id = none) ∧
    (∀ slug f now cur, (UpdateEntry s slug f now).2 = .ok () →
      findBySlug (UpdateEntry s slug f now).1 slug = some cur →
      ∀ q, ftsRowMatches q ⟨cur.id, cur.title, cur.description, cur.content⟩ = false →
      ∀ g lim n2 o, o ∈ (SearchEntries (UpdateEntry s slug f now).1 q g lim n2).2 →
        o.row.id ≠ cur.id) ∧
    (∀ slug f now cur, (UpdateEntry s slug f now).2 = .ok () →
      findBySlug (UpdateEntry s slug f now).1 slug = some cur →
      ∀ q, ftsRowMatches q ⟨cur.id, cur.title, cur.description, cur.content⟩ = true →
      (∀ rr ∈ (UpdateEntry s slug f now).1.fts, rr.rowid ≠ cur.id →
        ftsRowMatches q rr = false) →
      ∀ lim n2, ((SearchEntries (UpdateEntry s slug f now).1 q {} lim n2).2.map
        (fun o => o.row.id)) = [cur.id]) := by
  have hupd : ∀ slug f now, (UpdateEntry s slug f now).2 = .ok () →
      ∃ e0, findBySlug s slug = some e0 ∧
        UpdateEntry s slug f now =
          (updateFinish (updateRows s e0 f now) e0 (applyFields f e0 now) f now,
            .ok ()) ∧
        findBySlug (UpdateEntry s slug f now).1 slug =
          some (applyFields f e0 now) := by
    intro slug f now hok
    rcases updateEntry_ok_cases s slug f now hok with ⟨e0, cur0, h0, hc, hcur, hEq⟩
    have he0mem : e0 ∈ s.entries := List.mem_of_find?_eq_some h0
    have hcur' := updateRows_find_id s hwf e0 he0mem f now
    have hc0 : cur0 = applyFields f e0 now := Option.some.inj (hcur.symm.trans hcur')
    subst hc0
    refine ⟨e0, h0, hEq, ?_⟩
    rw [hEq]
    exact updateFinish_findBySlug s slug f now e0 _ h0
  refine ⟨?_, ?_, ?_, ?_, ?_⟩
  · intro e now r hok
    unfold CreateEntry at hok ⊢
    by_cases h1 : s.entries.any (fun x => x.slug = e.slug)
    · rw [if_pos h1] at hok
      simp at hok
    · rw [if_neg h1] at hok ⊢
      by_cases h2 : contentCap < e.content.length
      · rw [if_pos h2] at hok
        simp at hok
      · rw [if_neg h2] at hok ⊢
        simp only [] at hok ⊢
        simp only [Except.ok.injEq] at hok
        subst hok
        show (ftsFor (setTags _ _ _) _) = _
        unfold ftsFor
        rw [show (setTags { s with
            entries := s.entries ++ [_], fts := s.fts ++
              [(⟨s.nextEntryId, e.title, e.description, e.content⟩ : FtsRow)]
            stats := s.stats ++ [_]
            nextEntryId := s.nextEntryId + 1 } s.nextEntryId e.tags).fts =
          s.fts ++ [(⟨s.nextEntryId, e.title, e.description, e.content⟩ : FtsRow)]
          from setTags_fts _ _ _]
        rw [find?_append_left_none _ _ (fun x hx => by
          have hlt := hwf.ftsIdsLt x hx
          simp only [decide_eq_false_iff_not]
          omega)]
        simp [List.find?_cons]
  · intro slug f now hok
    rcases hupd slug f now hok with ⟨e0, h0, hEq, hfound⟩
    refine ⟨applyFields f e0 now, hfound, ?_⟩
    rw [hEq]
    show (updateFinish _ _ _ _ _).fts.find? _ = _
    rw [updateFinish_fts]
    rw [find?_append_left_none _ _ (fun x hx => by
      rcases List.mem_filter.mp hx with ⟨_, hxid⟩
      simp only [decide_eq_true_eq, decide_eq_false_iff_not] at hxid ⊢
      show ¬ x.rowid = (applyFields f e0 now).id
      simpa [applyFields] using hxid)]
    simp [List.find?_cons, applyFields]
  · intro slug e0 h0
    unfold DeleteEntry
    rw [h0]
    apply List.find?_eq_none.mpr
    intro x hx
    rcases List.mem_filter.mp hx with ⟨_, hxid⟩
    simp only [decide_eq_true_eq] at hxid ⊢
    simpa using hxid
  · intro slug f now cur hok hfound q hmiss g lim n2 o ho
    rcases hupd slug f now hok with ⟨e0, h0, hEq, hfound'⟩
    have hcur : cur = applyFields f e0 now :=
      Option.some.inj ((hfound.symm.trans hfound'))
    subst hcur
    rcases search_out_spec ho with ⟨rr, hrrmem, hrrmatch, hid⟩
    rw [hEq] at hrrmem
    intro hoid
    have hrrid : rr.rowid = e0.id := by
      rw [← hid, hoid]
      simp [applyFields]
    rw [show (updateFinish (updateRows s e0 f now) e0 (applyFields f e0 now) f now).fts =
      ((updateRows s e0 f now).fts.filter (fun r => r.rowid ≠ e0.id)) ++
        [(⟨e0.id, (applyFields f e0 now).title, (applyFields f e0 now).description,
          (applyFields f e0 now).content⟩ : FtsRow)] from updateFinish_fts _ _ _ _ _]
      at hrrmem
    rcases List.mem_append.mp hrrmem with hin | hin
    · rcases List.mem_filter.mp hin with ⟨_, hne⟩
      simp only [decide_eq_true_eq] at hne
      exact hne hrrid
    · have hrr : rr = ⟨e0.id, (applyFields f e0 now).title,
          (applyFields f e0 now).description, (applyFields f e0 now).content⟩ :=
        List.mem_singleton.mp hin
      rw [hrr] at hrrmatch
      have : ftsRowMatches q ⟨(applyFields f e0 now).id, (applyFields f e0 now).title,
          (applyFields f e0 now).description, (applyFields f e0 now).content⟩ = true := by
        simpa [applyFields] using hrrmatch
      rw [hmiss] at this
      cases this
  · intro slug f now cur hok hfound q hhit hothers lim n2
    rcases hupd slug f now hok with ⟨e0, h0, hEq, hfound'⟩
    have hcur : cur = applyFields f e0 now :=
      Option.some.inj ((hfound.symm.trans hfound'))
    subst hcur
    have he0mem : e0 ∈ s.entries := List.mem_of_find?_eq_some h0
    have hcurid : (applyFields f e0 now).id = e0.id := by simp [applyFields]
    set nrow : FtsRow := ⟨e0.id, (applyFields f e0 now).title,
      (applyFields f e0 now).description, (applyFields f e0 now).content⟩ with hnrow
    have hftseq : (UpdateEntry s slug f now).1.fts =
        ((updateRows s e0 f now).fts.filter (fun r => r.rowid ≠ e0.id)) ++ [nrow] := by
      rw [hEq]
      exact updateFinish_fts _ _ _ _ _
    have hnrowmatch : ftsRowMatches q nrow = true := by
      have : nrow = ⟨(applyFields f e0 now).id, (applyFields f e0 now).title,
          (applyFields f e0 now).description, (applyFields f e0 now).content⟩ := by
        rw [hnrow, hcurid]
      rw [this]
      exact hhit
    have hhits : (UpdateEntry s slug f now).1.fts.filter (ftsRowMatches q) = [nrow] := by
      rw [hftseq, List.filter_append]
      have hleft : ((updateRows s e0 f now).fts.filter
          (fun r => r.rowid ≠ e0.id)).filter (ftsRowMatches q) = [] := by
        apply List.filter_eq_nil_iff.mpr
        intro a ha
        rcases List.mem_filter.mp ha with ⟨hamem, hane⟩
        have hane' : a.rowid ≠ e0.id := of_decide_eq_true hane
        have hamem' : a ∈ (UpdateEntry s slug f now).1.fts := by
          rw [hftseq]
          exact List.mem_append_left _ (List.mem_filter.mpr ⟨hamem, hane⟩)
        have := hothers a hamem' (by rw [hcurid]; exact hane')
        simp [this]
      rw [hleft]
      simp [hnrowmatch]
    have hfents : (UpdateEntry s slug f now).1.entries =
        (updateRows s e0 f now).entries := by
      rw [hEq]
      exact updateFinish_entries _ _ _ _ _
    have hfindid : (UpdateEntry s slug f now).1.entries.find?
        (fun x => x.id = nrow.rowid) = some (applyFields f e0 now) := by
      rw [hfents]
      exact updateRows_find_id s hwf e0 he0mem f now
    simp only [SearchEntries, hhits]
    rw [List.filterMap_cons]
    simp only [hfindid, List.filterMap_nil]
    have hself : entryMatchesFilter (UpdateEntry s slug f now).1 {}
        ({ applyFields f e0 now with content := "" } : EntryRow) = true :=
      entryMatchesFilter_empty _ _
    rw [show (Option.map (fun en => ({ en with content := "" } : EntryRow))
        (some (applyFields f e0 now))) = some ({ applyFields f e0 now with
          content := "" } : EntryRow) from rfl]
    simp only [List.filter_cons, hself, if_true, List.filter_nil]
    rw [List.take_of_length_le (by
      simpa using effSearchLimit_toNat_pos lim)]
    simp [applyFields]

/-- C1 witness: one entry with content "old stuff", updated to content
"new thing"; the index mirrors the update, a search for "old" cannot hit
the entry and a search for "new" returns exactly it. -/
theorem c1_index_sync_witness :
    WF (CreateEntry emptyStore { slug := "a", title := "A", content := "old stuff" } 1).1 ∧
    (UpdateEntry (CreateEntry emptyStore
        { slug := "a", title := "A", content := "old stuff" } 1).1
        "a" { content := some "new thing" } 9).2 = .ok () ∧
    findBySlug (UpdateEntry (CreateEntry emptyStore
        { slug := "a", title := "A", content := "old stuff" } 1).1
        "a" { content := some "new thing" } 9).1 "a" = some {
      id := 1
      slug := "a"
      title := "A"
      description := ""
      content := "new thing"
      kind := "skill"
      language := ""
      domain := ""
      project := ""
      version := 2
      createdAt := 1
      updatedAt := 9 } ∧
    (∃ cur, findBySlug (UpdateEntry (CreateEntry emptyStore
        { slug := "a", title := "A", content := "old stuff" } 1).1
        "a" { content := some "new thing" } 9).1 "a" = some cur ∧
      ftsFor (UpdateEntry (CreateEntry emptyStore
        { slug := "a", title := "A", content := "old stuff" } 1).1
        "a" { content := some "new thing" } 9).1 cur.id =
        some ⟨cur.id, cur.title, cur.description, cur.content⟩) ∧
    (∀ g lim n2 o, o ∈ (SearchEntries (UpdateEntry (CreateEntry emptyStore
        { slug := "a", title := "A", content := "old stuff" } 1).1
        "a" { content := some "new thing" } 9).1 "old" g lim n2).2 →
      o.row.id ≠ 1) ∧
    (∀ lim n2, ((SearchEntries (UpdateEntry (CreateEntry emptyStore
        { slug := "a", title := "A", content := "old stuff" } 1).1
        "a" { content := some "new thing" } 9).1 "new" {} lim n2).2.map
        (fun o => o.row.id)) = [1]) := by
  have hwf : WF (CreateEntry emptyStore
      { slug := "a", title := "A", content := "old stuff" } 1).1 := by
    constructor <;> decide
  have h := c1_index_sync _ hwf
  have hok : (UpdateEntry (CreateEntry emptyStore
      { slug := "a", title := "A", content := "old stuff" } 1).1
      "a" { content := some "new thing" } 9).2 = .ok () := by decide
  have hfound : findBySlug (UpdateEntry (CreateEntry emptyStore
      { slug := "a", title := "A", content := "old stuff" } 1).1
      "a" { content := some "new thing" } 9).1 "a" = some {
      id := 1
      slug := "a"
      title := "A"
      description := ""
      content := "new thing"
      kind := "skill"
      language := ""
      domain := ""
      project := ""
      version := 2
      createdAt := 1
      updatedAt := 9 } := by decide
  exact ⟨hwf, hok, hfound,
    h.2.1 "a" { content := some "new thing" } 9 hok,
    h.2.2.2.1 "a" { content := some "new thing" } 9 _ hok hfound "old" (by decide),
    h.2.2.2.2 "a" { content := some "new thing" } 9 _ hok hfound "new" (by decide)
      (by decide)⟩

/-!
Claim C7.  Replacing an entry's tag set is destructive-then-additive
inside the surrounding transaction (`setTags` runs on the transaction in
`CreateEntry` and `UpdateEntry`): the entry's associations are removed,
then each non-blank trimmed name gets its tag row (created if absent)
and its association; blank names are silently dropped; the operation is
idempotent and leaves other entries' associations alone.
-/

/-- The trimmed, non-blank tag names of a requested tag list. -/
def cleanedTagNames (names : List String) : List String :=
  (names.map trimStr).filter (fun n => n ≠ "")

theorem cleanedTagNames_cons (m : String) (rest : List String) :
    cleanedTagNames (m :: rest) =
      if trimStr m = "" then cleanedTagNames rest
      else trimStr m :: cleanedTagNames rest := by
  unfold cleanedTagNames
  by_cases hm : trimStr m = "" <;> simp [hm]

/-- The inserted association is present afterwards. -/
theorem insertAssoc_self (ets : List EntryTagRow) (eid tid : Nat) :
    (⟨eid, tid⟩ : EntryTagRow) ∈ insertAssoc ets eid tid := by
  unfold insertAssoc
  by_cases h : (⟨eid, tid⟩ : EntryTagRow) ∈ ets <;> simp [h]

/-- Existing associations survive the idempotent insert. -/
theorem insertAssoc_mono {ets : List EntryTagRow} {x : EntryTagRow} (eid tid : Nat)
    (hx : x ∈ ets) : x ∈ insertAssoc ets eid tid := by
  unfold insertAssoc
  by_cases h : (⟨eid, tid⟩ : EntryTagRow) ∈ ets <;> simp [h, hx]

/-- An association present after the insert was present before or is the
inserted one. -/
theorem insertAssoc_cases {ets : List EntryTagRow} {x : EntryTagRow} (eid tid : Nat)
    (hx : x ∈ insertAssoc ets eid tid) : x ∈ ets ∨ x = ⟨eid, tid⟩ := by
  unfold insertAssoc at hx
  by_cases h : (⟨eid, tid⟩ : EntryTagRow) ∈ ets
  · rw [if_pos h] at hx
    exact Or.inl hx
  · rw [if_neg h] at hx
    rcases List.mem_append.mp hx with h2 | h2
    · exact Or.inl h2
    · exact Or.inr (List.mem_singleton.mp h2)

/-- The idempotent insert preserves freedom from duplicates. -/
theorem insertAssoc_nodup {ets : List EntryTagRow} (eid tid : Nat)
    (h : ets.Nodup) : (insertAssoc ets eid tid).Nodup := by
  unfold insertAssoc
  by_cases hm : (⟨eid, tid⟩ : EntryTagRow) ∈ ets
  · rw [if_pos hm]
    exact h
  · rw [if_neg hm, ← List.concat_eq_append]
    exact h.concat hm

/-- The idempotent insert only ever appends. -/
theorem insertAssoc_append (ets : List EntryTagRow) (eid tid : Nat) :
    ∃ d, insertAssoc ets eid tid = ets ++ d ∧ ∀ x ∈ d, x.entryId = eid := by
  unfold insertAssoc
  by_cases h : (⟨eid, tid⟩ : EntryTagRow) ∈ ets
  · exact ⟨[], by simp [h], by simp⟩
  · exact ⟨[⟨eid, tid⟩], by simp [h], by simp⟩

/-- Invariants of the tags table threaded through the loop: unique
names, unique ids, ids below the AUTOINCREMENT counter. -/
def GoodTags (tags : List TagRow) (next : Nat) : Prop :=
  (tags.map TagRow.name).Nodup ∧ (tags.map TagRow.id).Nodup ∧ ∀ t ∈ tags, t.id < next

/-- The upsert leaves the table unchanged or appends the fresh row. -/
theorem upsertTag_prefix (tags : List TagRow) (next : Nat) (n : String) :
    (upsertTag tags next n).1 = tags ∨
      (upsertTag tags next n).1 = tags ++ [⟨next, n⟩] := by
  unfold upsertTag
  cases _h : tags.find? (fun t => t.name = n) <;> simp

/-- When the name is already present the upsert is a pure lookup. -/
theorem upsertTag_found {tags : List TagRow} {next : Nat} {n : String} {t : TagRow}
    (h : tags.find? (fun x => x.name = n) = some t) :
    upsertTag tags next n = (tags, next, t.id) := by
  unfold upsertTag
  rw [h]

/-- After the upsert the table holds a row with the returned id and the
upserted name. -/
theorem upsertTag_row_mem (tags : List TagRow) (next : Nat) (n : String) :
    (⟨(upsertTag tags next n).2.2, n⟩ : TagRow) ∈ (upsertTag tags next n).1 := by
  unfold upsertTag
  cases h : tags.find? (fun t => t.name = n) with
  | none => simp
  | some t =>
    simp only []
    have hn : t.name = n := by
      have h2 := List.find?_some h
      exact of_decide_eq_true h2
    have hm : t ∈ tags := List.mem_of_find?_eq_some h
    have ht : (⟨t.id, n⟩ : TagRow) = t := by
      cases t
      simp only at hn
      rw [hn]
    rw [ht]
    exact hm

/-- The upsert preserves the table invariants and never shrinks the
counter. -/
theorem upsertTag_good (tags : List TagRow) (next : Nat) (n : String)
    (hg : GoodTags tags next) :
    GoodTags (upsertTag tags next n).1 (upsertTag tags next n).2.1 ∧
      next ≤ (upsertTag tags next n).2.1 := by
  unfold upsertTag
  cases h : tags.find? (fun t => t.name = n) with
  | some t => exact ⟨hg, le_refl next⟩
  | none =>
    simp only []
    have hnone : ∀ t ∈ tags, t.name ≠ n := by
      intro t ht
      have h2 := List.find?_eq_none.mp h t ht
      simpa using h2
    refine ⟨⟨?_, ?_, ?_⟩, Nat.le_succ next⟩
    · simp only [List.map_append, List.map_cons, List.map_nil]
      rw [← List.concat_eq_append]
      apply List.Nodup.concat
      · simp only [List.mem_map]
        rintro ⟨t, ht, htn⟩
        exact hnone t ht htn
      · exact hg.1
    · simp only [List.map_append, List.map_cons, List.map_nil]
      rw [← List.concat_eq_append]
      apply List.Nodup.concat
      · simp only [List.mem_map]
        rintro ⟨t, ht, htn⟩
        have := hg.2.2 t ht
        omega
      · exact hg.2.1
    · intro t ht
      rcases List.mem_append.mp ht with h2 | h2
      · have := hg.2.2 t h2
        omega
      · rw [List.mem_singleton.mp h2]
        exact Nat.lt_succ_self next

/-- The loop only appends associations of the entry being retagged. -/
theorem setTagsLoop_ets_append (eid : Nat) : ∀ (names : List String)
    (tags : List TagRow) (ets : List EntryTagRow) (next : Nat),
    ∃ d, (setTagsLoop tags ets next eid names).2.1 = ets ++ d ∧
      ∀ x ∈ d, x.entryId = eid := by
  intro names
  induction names with
  | nil =>
    intro tags ets next
    exact ⟨[], by simp [setTagsLoop], by simp⟩
  | cons m rest ih =>
    intro tags ets next
    by_cases hm : trimStr m = ""
    · rw [show setTagsLoop tags ets next eid (m :: rest) =
        setTagsLoop tags ets next eid rest by simp [setTagsLoop, hm]]
      exact ih tags ets next
    · rw [show setTagsLoop tags ets next eid (m :: rest) =
        setTagsLoop (upsertTag tags next (trimStr m)).1
          (insertAssoc ets eid (upsertTag tags next (trimStr m)).2.2)
          (upsertTag tags next (trimStr m)).2.1 eid rest by
        simp [setTagsLoop, hm]]
      rcases ih (upsertTag tags next (trimStr m)).1
        (insertAssoc ets eid (upsertTag tags next (trimStr m)).2.2)
        (upsertTag tags next (trimStr m)).2.1 with ⟨d, hd, hall⟩
      rcases insertAssoc_append ets eid (upsertTag tags next (trimStr m)).2.2
        with ⟨d0, hd0, hall0⟩
      refine ⟨d0 ++ d, ?_, ?_⟩
      · rw [hd, hd0, List.append_assoc]
      · intro x hx
        rcases List.mem_append.mp hx with h2 | h2
        · exact hall0 x h2
        · exact hall x h2

/-- The loop only appends tag rows. -/
theorem setTagsLoop_tags_append (eid : Nat) : ∀ (names : List String)
    (tags : List TagRow) (ets : List EntryTagRow) (next : Nat),
    ∃ d, (setTagsLoop tags ets next eid names).1 = tags ++ d := by
  intro names
  induction names with
  | nil =>
    intro tags ets next
    exact ⟨[], by simp [setTagsLoop]⟩
  | cons m rest ih =>
    intro tags ets next
    by_cases hm : trimStr m = ""
    · rw [show setTagsLoop tags ets next eid (m :: rest) =
        setTagsLoop tags ets next eid rest by simp [setTagsLoop, hm]]
      exact ih tags ets next
    · rw [show setTagsLoop tags ets next eid (m :: rest) =
        setTagsLoop (upsertTag tags next (trimStr m)).1
          (insertAssoc ets eid (upsertTag tags next (trimStr m)).2.2)
          (upsertTag tags next (trimStr m)).2.1 eid rest by
        simp [setTagsLoop, hm]]
      rcases ih (upsertTag tags next (trimStr m)).1
        (insertAssoc ets eid (upsertTag tags next (trimStr m)).2.2)
        (upsertTag tags next (trimStr m)).2.1 with ⟨d, hd⟩
      rcases upsertTag_prefix tags next (trimStr m) with h1 | h1
      · exact ⟨d, by rw [hd, h1]⟩
      · exact ⟨⟨next, trimStr m⟩ :: d, by rw [hd, h1, List.append_assoc]; rfl⟩

/-- The loop preserves the tags-table invariants. -/
theorem setTagsLoop_good (eid : Nat) : ∀ (names : List String)
    (tags : List TagRow) (ets : List EntryTagRow) (next : Nat),
    GoodTags tags next →
    GoodTags (setTagsLoop tags ets next eid names).1
      (setTagsLoop tags ets next eid names).2.2 := by
  intro names
  induction names with
  | nil =>
    intro tags ets next hg
    simpa [setTagsLoop] using hg
  | cons m rest ih =>
    intro tags ets next hg
    by_cases hm : trimStr m = ""
    · rw [show setTagsLoop tags ets next eid (m :: rest) =
        setTagsLoop tags ets next eid rest by simp [setTagsLoop, hm]]
      exact ih tags ets next hg
    · rw [show setTagsLoop tags ets next eid (m :: rest) =
        setTagsLoop (upsertTag tags next (trimStr m)).1
          (insertAssoc ets eid (upsertTag tags next (trimStr m)).2.2)
          (upsertTag tags next (trimStr m)).2.1 eid rest by
        simp [setTagsLoop, hm]]
      exact ih _ _ _ (upsertTag_good tags next (trimStr m) hg).1

/-- The loop preserves freedom from duplicate associations. -/
theorem setTagsLoop_ets_nodup (eid : Nat) : ∀ (names : List String)
    (tags : List TagRow) (ets : List EntryTagRow) (next : Nat),
    ets.Nodup → (setTagsLoop tags ets next eid names).2.1.Nodup := by
  intro names
  induction names with
  | nil =>
    intro tags ets next h
    simpa [setTagsLoop] using h
  | cons m rest ih =>
    intro tags ets next h
    by_cases hm : trimStr m = ""
    · rw [show setTagsLoop tags ets next eid (m :: rest) =
        setTagsLoop tags ets next eid rest by simp [setTagsLoop, hm]]
      exact ih tags ets next h
    · rw [show setTagsLoop tags ets next eid (m :: rest) =
        setTagsLoop (upsertTag tags next (trimStr m)).1
          (insertAssoc ets eid (upsertTag tags next (trimStr m)).2.2)
          (upsertTag tags next (trimStr m)).2.1 eid rest by
        simp [setTagsLoop, hm]]
      exact ih _ _ _ (insertAssoc_nodup _ _ h)

/-- Characterization of the loop: afterwards, the tag names associated
with the retagged entry are exactly those associated on entry to the
loop together with the trimmed non-blank requested names. -/
theorem setTagsLoop_char (eid : Nat) : ∀ (names : List String)
    (tags : List TagRow) (ets : List EntryTagRow) (next : Nat),
    GoodTags tags next → ∀ n : String,
    ((∃ t ∈ (setTagsLoop tags ets next eid names).1, t.name = n ∧
        (⟨eid, t.id⟩ : EntryTagRow) ∈ (setTagsLoop tags ets next eid names).2.1) ↔
      ((∃ t ∈ tags, t.name = n ∧ (⟨eid, t.id⟩ : EntryTagRow) ∈ ets) ∨
        n ∈ cleanedTagNames names)) := by
  intro names
  induction names with
  | nil =>
    intro tags ets next _ n
    simp [setTagsLoop, cleanedTagNames]
  | cons m rest ih =>
    intro tags ets next hg n
    by_cases hm : trimStr m = ""
    · rw [show setTagsLoop tags ets next eid (m :: rest) =
        setTagsLoop tags ets next eid rest by simp [setTagsLoop, hm]]
      rw [cleanedTagNames_cons, if_pos hm]
      exact ih tags ets next hg n
    · rw [show setTagsLoop tags ets next eid (m :: rest) =
        setTagsLoop (upsertTag tags next (trimStr m)).1
          (insertAssoc ets eid (upsertTag tags next (trimStr m)).2.2)
          (upsertTag tags next (trimStr m)).2.1 eid rest by
        simp [setTagsLoop, hm]]
      rw [cleanedTagNames_cons, if_neg hm]
      rw [ih _ _ _ (upsertTag_good tags next (trimStr m) hg).1 n]
      have hmid : (∃ t ∈ (upsertTag tags next (trimStr m)).1, t.name = n ∧
          (⟨eid, t.id⟩ : EntryTagRow) ∈
            insertAssoc ets eid (upsertTag tags next (trimStr m)).2.2) ↔
          ((∃ t ∈ tags, t.name = n ∧ (⟨eid, t.id⟩ : EntryTagRow) ∈ ets) ∨
            n = trimStr m) := by
        constructor
        · rintro ⟨t, htm, htn, hpair⟩
          rcases insertAssoc_cases eid _ hpair with hp | hp
          · rcases upsertTag_prefix tags next (trimStr m) with h1 | h1
            · rw [h1] at htm
              exact Or.inl ⟨t, htm, htn, hp⟩
            · rw [h1] at htm
              rcases List.mem_append.mp htm with h2 | h2
              · exact Or.inl ⟨t, h2, htn, hp⟩
              · right
                rw [← htn, List.mem_singleton.mp h2]
          · right
            have htid : t.id = (upsertTag tags next (trimStr m)).2.2 := by
              have := congrArg EntryTagRow.tagId hp
              simpa using this
            have hrow := upsertTag_row_mem tags next (trimStr m)
            have hgu := (upsertTag_good tags next (trimStr m) hg).1
            have : t = ⟨(upsertTag tags next (trimStr m)).2.2, trimStr m⟩ :=
              key_unique TagRow.id hgu.2.1 htm hrow (by rw [htid])
            rw [← htn, this]
        · rintro (⟨t, htm, htn, hpair⟩ | hn)
          · refine ⟨t, ?_, htn, insertAssoc_mono _ _ hpair⟩
            rcases upsertTag_prefix tags next (trimStr m) with h1 | h1
            · rw [h1]
              exact htm
            · rw [h1]
              exact List.mem_append_left _ htm
          · refine ⟨⟨(upsertTag tags next (trimStr m)).2.2, trimStr m⟩,
              upsertTag_row_mem tags next (trimStr m), hn.symm, ?_⟩
            exact insertAssoc_self _ _ _
      rw [hmid]
      constructor
      · rintro ((h | h) | h)
        · exact Or.inl h
        · exact Or.inr (by rw [h]; exact List.mem_cons_self _ _)
        · exact Or.inr (List.mem_cons_of_mem _ h)
      · rintro (h | h)
        · exact Or.inl (Or.inl h)
        · rcases List.mem_cons.mp h with h2 | h2
          · exact Or.inl (Or.inr h2)
          · exact Or.inr h2

/-- Rerunning the loop with the same names on its own output changes
nothing. -/
theorem setTagsLoop_stable (eid : Nat) : ∀ (names : List String)
    (tags : List TagRow) (ets : List EntryTagRow) (next : Nat),
    GoodTags tags next →
    setTagsLoop (setTagsLoop tags ets next eid names).1 ets
      (setTagsLoop tags ets next eid names).2.2 eid names =
      setTagsLoop tags ets next eid names := by
  intro names
  induction names with
  | nil =>
    intro tags ets next _
    simp [setTagsLoop]
  | cons m rest ih =>
    intro tags ets next hg
    by_cases hm : trimStr m = ""
    · rw [show setTagsLoop tags ets next eid (m :: rest) =
        setTagsLoop tags ets next eid rest by simp [setTagsLoop, hm]]
      rw [show setTagsLoop (setTagsLoop tags ets next eid rest).1 ets
          (setTagsLoop tags ets next eid rest).2.2 eid (m :: rest) =
        setTagsLoop (setTagsLoop tags ets next eid rest).1 ets
          (setTagsLoop tags ets next eid rest).2.2 eid rest by
        simp [setTagsLoop, hm]]
      exact ih tags ets next hg
    · have hstep : setTagsLoop tags ets next eid (m :: rest) =
          setTagsLoop (upsertTag tags next (trimStr m)).1
            (insertAssoc ets eid (upsertTag tags next (trimStr m)).2.2)
            (upsertTag tags next (trimStr m)).2.1 eid rest := by
        simp [setTagsLoop, hm]
      have hgu := (upsertTag_good tags next (trimStr m) hg).1
      have hrow := upsertTag_row_mem tags next (trimStr m)
      have hgood2 := setTagsLoop_good eid rest (upsertTag tags next (trimStr m)).1
        (insertAssoc ets eid (upsertTag tags next (trimStr m)).2.2)
        (upsertTag tags next (trimStr m)).2.1 hgu
      rcases setTagsLoop_tags_append eid rest (upsertTag tags next (trimStr m)).1
        (insertAssoc ets eid (upsertTag tags next (trimStr m)).2.2)
        (upsertTag tags next (trimStr m)).2.1 with ⟨dt, hdt⟩
      have hrowfinal : (⟨(upsertTag tags next (trimStr m)).2.2, trimStr m⟩ : TagRow) ∈
          (setTagsLoop (upsertTag tags next (trimStr m)).1
            (insertAssoc ets eid (upsertTag tags next (trimStr m)).2.2)
            (upsertTag tags next (trimStr m)).2.1 eid rest).1 := by
        rw [hdt]
        exact List.mem_append_left _ hrow
      have hfind : (setTagsLoop (upsertTag tags next (trimStr m)).1
          (insertAssoc ets eid (upsertTag tags next (trimStr m)).2.2)
          (upsertTag tags next (trimStr m)).2.1 eid rest).1.find?
            (fun t => t.name = trimStr m) =
          some ⟨(upsertTag tags next (trimStr m)).2.2, trimStr m⟩ :=
        find_by_unique_key TagRow.name hgood2.1 hrowfinal
      have hupsert2 := @upsertTag_found
        (setTagsLoop (upsertTag tags next (trimStr m)).1
          (insertAssoc ets eid (upsertTag tags next (trimStr m)).2.2)
          (upsertTag tags next (trimStr m)).2.1 eid rest).1
        (setTagsLoop (upsertTag tags next (trimStr m)).1
          (insertAssoc ets eid (upsertTag tags next (trimStr m)).2.2)
          (upsertTag tags next (trimStr m)).2.1 eid rest).2.2
        (trimStr m) ⟨(upsertTag tags next (trimStr m)).2.2, trimStr m⟩ hfind
      rw [hstep]
      rw [show setTagsLoop (setTagsLoop (upsertTag tags next (trimStr m)).1
          (insertAssoc ets eid (upsertTag tags next (trimStr m)).2.2)
          (upsertTag tags next (trimStr m)).2.1 eid rest).1 ets
          (setTagsLoop (upsertTag tags next (trimStr m)).1
            (insertAssoc ets eid (upsertTag tags next (trimStr m)).2.2)
            (upsertTag tags next (trimStr m)).2.1 eid rest).2.2 eid (m :: rest) =
        setTagsLoop (upsertTag (setTagsLoop (upsertTag tags next (trimStr m)).1
            (insertAssoc ets eid (upsertTag tags next (trimStr m)).2.2)
            (upsertTag tags next (trimStr m)).2.1 eid rest).1
          (setTagsLoop (upsertTag tags next (trimStr m)).1
            (insertAssoc ets eid (upsertTag tags next (trimStr m)).2.2)
            (upsertTag tags next (trimStr m)).2.1 eid rest).2.2 (trimStr m)).1
          (insertAssoc ets eid (upsertTag (setTagsLoop (upsertTag tags next (trimStr m)).1
            (insertAssoc ets eid (upsertTag tags next (trimStr m)).2.2)
            (upsertTag tags next (trimStr m)).2.1 eid rest).1
          (setTagsLoop (upsertTag tags next (trimStr m)).1
            (insertAssoc ets eid (upsertTag tags next (trimStr m)).2.2)
            (upsertTag tags next (trimStr m)).2.1 eid rest).2.2 (trimStr m)).2.2)
          (upsertTag (setTagsLoop (upsertTag tags next (trimStr m)).1
            (insertAssoc ets eid (upsertTag tags next (trimStr m)).2.2)
            (upsertTag tags next (trimStr m)).2.1 eid rest).1
          (setTagsLoop (upsertTag tags next (trimStr m)).1
            (insertAssoc ets eid (upsertTag tags next (trimStr m)).2.2)
            (upsertTag tags next (trimStr m)).2.1 eid rest).2.2 (trimStr m)).2.1
          eid rest by
        simp [setTagsLoop, hm]]
      rw [hupsert2]
      simp only []
      exact ih (upsertTag tags next (trimStr m)).1
        (insertAssoc ets eid (upsertTag tags next (trimStr m)).2.2)
        (upsertTag tags next (trimStr m)).2.1 hgu

/-- The tags table produced by `setTags`. -/
theorem setTags_tags (s : Store) (eid : Nat) (names : List String) :
    (setTags s eid names).tags =
      (setTagsLoop s.tags (s.entryTags.filter (fun a => a.entryId ≠ eid))
        s.nextTagId eid names).1 := rfl

/-- The association table produced by `setTags`. -/
theorem setTags_entryTags (s : Store) (eid : Nat) (names : List String) :
    (setTags s eid names).entryTags =
      (setTagsLoop s.tags (s.entryTags.filter (fun a => a.entryId ≠ eid))
        s.nextTagId eid names).2.1 := rfl

/-- The tag AUTOINCREMENT counter produced by `setTags`. -/
theorem setTags_nextTagId (s : Store) (eid : Nat) (names : List String) :
    (setTags s eid names).nextTagId =
      (setTagsLoop s.tags (s.entryTags.filter (fun a => a.entryId ≠ eid))
        s.nextTagId eid names).2.2 := rfl

/-- Two stores agreeing on every column agree. -/
theorem store_eq_of_fields {a b : Store}
    (h1 : a.entries = b.entries) (h2 : a.fts = b.fts) (h3 : a.tags = b.tags)
    (h4 : a.entryTags = b.entryTags) (h5 : a.stats = b.stats)
    (h6 : a.lockActive = b.lockActive) (h7 : a.lockToken = b.lockToken)
    (h8 : a.nextEntryId = b.nextEntryId) (h9 : a.nextTagId = b.nextTagId) :
    a = b := by
  cases a
  cases b
  simp_all

/-- C7: replacing an entry's tag set first drops all of the entry's
current associations and then inserts one association per trimmed
non-blank requested name, upserting tag rows as needed: other entries'
associations are untouched, the association table stays duplicate-free,
the names now associated with the entry are exactly the trimmed
non-blank requested names (blanks silently dropped), and running the
same replacement twice gives the same store as running it once. -/
theorem c7_tag_replacement (s : Store) (eid : Nat) (names : List String)
    (hw : WF s) :
    ((setTags s eid names).entryTags.filter (fun a => a.entryId ≠ eid) =
        s.entryTags.filter (fun a => a.entryId ≠ eid)) ∧
      (setTags s eid names).entryTags.Nodup ∧
      (∀ n : String,
        ((∃ t ∈ (setTags s eid names).tags, t.name = n ∧
            (⟨eid, t.id⟩ : EntryTagRow) ∈ (setTags s eid names).entryTags) ↔
          n ∈ cleanedTagNames names)) ∧
      setTags (setTags s eid names) eid names = setTags s eid names := by
  have hg : GoodTags s.tags s.nextTagId :=
    ⟨hw.tagNamesNodup, hw.tagIdsNodup, hw.tagIdsLt⟩
  rcases setTagsLoop_ets_append eid names s.tags
    (s.entryTags.filter (fun a => a.entryId ≠ eid)) s.nextTagId with ⟨d, hd, hall⟩
  have ha : (setTags s eid names).entryTags.filter (fun a => a.entryId ≠ eid) =
      s.entryTags.filter (fun a => a.entryId ≠ eid) := by
    rw [setTags_entryTags, hd, List.filter_append]
    have h1 : (s.entryTags.filter (fun a => a.entryId ≠ eid)).filter
        (fun a => a.entryId ≠ eid) =
        s.entryTags.filter (fun a => a.entryId ≠ eid) := by
      apply List.filter_eq_self.mpr
      intro x hx
      have hx2 := List.of_mem_filter hx
      simpa using hx2
    have h2 : d.filter (fun a => a.entryId ≠ eid) = [] := by
      apply List.filter_eq_nil_iff.mpr
      intro x hx
      simp [hall x hx]
    rw [h1, h2, List.append_nil]
  have hb : (setTags s eid names).entryTags.Nodup := by
    rw [setTags_entryTags]
    exact setTagsLoop_ets_nodup eid names _ _ _ (hw.assocNodup.filter _)
  have hc : ∀ n : String,
      ((∃ t ∈ (setTags s eid names).tags, t.name = n ∧
          (⟨eid, t.id⟩ : EntryTagRow) ∈ (setTags s eid names).entryTags) ↔
        n ∈ cleanedTagNames names) := by
    intro n
    rw [setTags_tags, setTags_entryTags]
    rw [setTagsLoop_char eid names s.tags
      (s.entryTags.filter (fun a => a.entryId ≠ eid)) s.nextTagId hg n]
    constructor
    · rintro (⟨t, _, _, hpair⟩ | h)
      · have := List.of_mem_filter hpair
        simp at this
      · exact h
    · exact Or.inr
  have hstable := setTagsLoop_stable eid names s.tags
    (s.entryTags.filter (fun a => a.entryId ≠ eid)) s.nextTagId hg
  refine ⟨ha, hb, hc, ?_⟩
  refine store_eq_of_fields rfl rfl ?_ ?_ rfl rfl rfl rfl ?_
  · rw [setTags_tags (setTags s eid names) eid names, ha,
      setTags_tags s eid names, setTags_nextTagId s eid names, hstable]
  · rw [setTags_entryTags (setTags s eid names) eid names, ha,
      setTags_tags s eid names, setTags_nextTagId s eid names,
      setTags_entryTags s eid names, hstable]
  · rw [setTags_nextTagId (setTags s eid names) eid names, ha,
      setTags_tags s eid names, setTags_nextTagId s eid names, hstable]

theorem c7_tag_replacement_witness :
    WF (CreateEntry (CreateEntry emptyStore
        { slug := "a", title := "A", content := "ca", tags := ["t"] } 1).1
        { slug := "b", title := "B", content := "cb", tags := ["u"] } 2).1 ∧
    (((setTags (CreateEntry (CreateEntry emptyStore
        { slug := "a", title := "A", content := "ca", tags := ["t"] } 1).1
        { slug := "b", title := "B", content := "cb", tags := ["u"] } 2).1 1 ["go", "  ", " db "]).entryTags.filter (fun a => a.entryId ≠ 1) =
        ((CreateEntry (CreateEntry emptyStore
        { slug := "a", title := "A", content := "ca", tags := ["t"] } 1).1
        { slug := "b", title := "B", content := "cb", tags := ["u"] } 2).1).entryTags.filter (fun a => a.entryId ≠ 1)) ∧
      (setTags (CreateEntry (CreateEntry emptyStore
        { slug := "a", title := "A", content := "ca", tags := ["t"] } 1).1
        { slug := "b", title := "B", content := "cb", tags := ["u"] } 2).1 1 ["go", "  ", " db "]).entryTags.Nodup ∧
      (∀ n : String,
        ((∃ t ∈ (setTags (CreateEntry (CreateEntry emptyStore
        { slug := "a", title := "A", content := "ca", tags := ["t"] } 1).1
        { slug := "b", title := "B", content := "cb", tags := ["u"] } 2).1 1 ["go", "  ", " db "]).tags, t.name = n ∧
            (⟨1, t.id⟩ : EntryTagRow) ∈ (setTags (CreateEntry (CreateEntry emptyStore
        { slug := "a", title := "A", content := "ca", tags := ["t"] } 1).1
        { slug := "b", title := "B", content := "cb", tags := ["u"] } 2).1 1 ["go", "  ", " db "]).entryTags) ↔
          n ∈ cleanedTagNames ["go", "  ", " db "])) ∧
      setTags (setTags (CreateEntry (CreateEntry emptyStore
        { slug := "a", title := "A", content := "ca", tags := ["t"] } 1).1
        { slug := "b", title := "B", content := "cb", tags := ["u"] } 2).1 1 ["go", "  ", " db "]) 1 ["go", "  ", " db "] =
        setTags (CreateEntry (CreateEntry emptyStore
        { slug := "a", title := "A", content := "ca", tags := ["t"] } 1).1
        { slug := "b", title := "B", content := "cb", tags := ["u"] } 2).1 1 ["go", "  ", " db "]) := by
  have hwf : WF (CreateEntry (CreateEntry emptyStore
        { slug := "a", title := "A", content := "ca", tags := ["t"] } 1).1
        { slug := "b", title := "B", content := "cb", tags := ["u"] } 2).1 := by
    constructor <;> decide
  exact ⟨hwf, c7_tag_replacement (CreateEntry (CreateEntry emptyStore
        { slug := "a", title := "A", content := "ca", tags := ["t"] } 1).1
        { slug := "b", title := "B", content := "cb", tags := ["u"] } 2).1 1 ["go", "  ", " db "] hwf⟩

end MCPedia
